import Mathlib

/-!
Verification of the wyoming-glados protocol handler against its
natural-language specification.

The development shallowly embeds the Python sources:
  * `src/server/handler.py` — text normalization, sentence-level synthesis
    orchestration (`handle_tts_request`), and the event dispatcher / audio
    framer (`handle_event`);
  * `src/__main__.py` — the startup validation performed by `main`;
  * `src/download.py` — the model-artifact integrity check
    (`is_valid_file` / the per-file body of `ensure_model_exists`).

Python strings are embedded as `List Char`, bytes as `List Nat`, and the
external collaborators (the NLTK sentence tokenizer, the GLaDOS synthesis
engine, urllib's URL quoting, and the network fetch) are parameters of the
definitions, specified only at their boundary, exactly as the spec treats
them.
-/

/-- Python strings are embedded as lists of characters. -/
abbrev Str := List Char

/-- Python `str.strip` whitespace on the ASCII range: space, tab, newline,
vertical tab, form feed and carriage return (`str.isspace` characters).
The model restricts attention to this set; the exotic Unicode whitespace
characters behave exactly like `'\x0b'` (they are simultaneously
`str.strip` whitespace and `str.splitlines` boundaries), so nothing in the
development depends on their absence. -/
def isPySpace (c : Char) : Bool :=
  c == ' ' || c == '\t' || c == '\n' || c == '\x0b' || c == '\x0c' || c == '\r'

/-- Python `str.splitlines` line boundaries within the modelled character
set: newline, carriage return, vertical tab and form feed.  A carriage
return immediately followed by a newline counts as a single boundary. -/
def isBreak (c : Char) : Bool :=
  c == '\n' || c == '\r' || c == '\x0b' || c == '\x0c'

/-- Python `str.lstrip`: drop leading whitespace. -/
def lstrip (s : Str) : Str := s.dropWhile isPySpace

/-- Python `str.rstrip`: drop trailing whitespace. -/
def rstrip : Str → Str
  | [] => []
  | c :: t =>
    match rstrip t with
    | [] => if isPySpace c then [] else [c]
    | d :: u => c :: d :: u

/-- Python `str.strip`: drop whitespace at both ends. -/
def pyStrip (s : Str) : Str := lstrip (rstrip s)

/-- Python `str.splitlines`: split at line boundaries, treating `"\r\n"` as
one boundary and not producing a final empty line for a trailing boundary. -/
def splitlines : Str → List Str
  | [] => []
  | c :: t =>
    if c = '\r' then
      match t with
      | [] => [[]]
      | d :: u =>
        if d = '\n' then [] :: splitlines u
        else [] :: splitlines (d :: u)
    else if isBreak c then [] :: splitlines t
    else
      match splitlines t with
      | [] => [[c]]
      | l :: ls => (c :: l) :: ls

/-- Python `" ".join`: concatenate with a single space between elements. -/
def joinSpace : List Str → Str
  | [] => []
  | l :: ls =>
    match ls with
    | [] => l
    | m :: ms => l ++ ' ' :: joinSpace (m :: ms)

/-- Replace every line boundary of a string by a single space (with `"\r\n"`
replaced by one space).  Auxiliary canonical form used to relate
`joinSpace ∘ splitlines` with stripping. -/
def replaceBr : Str → Str
  | [] => []
  | c :: t =>
    if c = '\r' then
      match t with
      | [] => [' ']
      | d :: u =>
        if d = '\n' then ' ' :: replaceBr u
        else ' ' :: replaceBr (d :: u)
    else if isBreak c then ' ' :: replaceBr t
    else c :: replaceBr t

/-- Python `text.endswith(c)` for a single-character suffix. -/
def endsWith (s : Str) (c : Char) : Bool := s.getLast? == some c

/-- The text normalization inlined in `GladosEventHandler.handle_event`
(src/server/handler.py):

    text = " ".join(raw_text.strip().splitlines())
    if self.cli_args.auto_punctuation and text:
        if not any(text.endswith(p) for p in self.cli_args.auto_punctuation):
            text += self.cli_args.auto_punctuation[0]
-/
def pyNormalize (raw punct : Str) : Str :=
  let text := joinSpace (splitlines (pyStrip raw))
  match punct with
  | [] => text
  | p :: ps =>
    if text = [] then text
    else if (p :: ps).any (fun c => endsWith text c) then text
    else text ++ [p]

/-- Reference normalization, following the spec's words (§4.2): join all
lines of the raw text with a single space and trim leading/trailing
whitespace; if the result is non-empty and does not already end with a
character of the punctuation set, append the first character of the set;
if the set is empty, append nothing. -/
def normalizeSpec (raw punct : Str) : Str :=
  let text := pyStrip (joinSpace (splitlines raw))
  match punct with
  | [] => text
  | p :: ps =>
    if text = [] then text
    else if (p :: ps).any (fun c => endsWith text c) then text
    else text ++ [p]

/-- A string has no trailing whitespace (vacuously true for the empty
string). -/
def noTrailWS (s : Str) : Prop := ∀ c, s.getLast? = some c → isPySpace c = false

/-- Case-analysis principle following the recursion structure of
`splitlines` / `replaceBr`: empty string, `"\r\n"` pair, lone carriage
return, other line boundary, ordinary character. -/
def crInd {motive : Str → Prop}
    (h0 : motive [])
    (h1 : ∀ u, motive u → motive ('\r' :: '\n' :: u))
    (h2 : ∀ t, t.head? ≠ some '\n' → motive t → motive ('\r' :: t))
    (h3 : ∀ c t, isBreak c = true → c ≠ '\r' → motive t → motive (c :: t))
    (h4 : ∀ c t, isBreak c = false → motive t → motive (c :: t)) :
    ∀ s, motive s := by
  have key : ∀ n (s : Str), s.length ≤ n → motive s := by
    intro n
    induction n with
    | zero =>
      intro s hs
      have : s = [] := by
        cases s with
        | nil => rfl
        | cons c t => simp at hs
      exact this ▸ h0
    | succ n ih =>
      intro s hs
      cases s with
      | nil => exact h0
      | cons c t =>
        by_cases hc : c = '\r'
        · subst hc
          cases t with
          | nil => exact h2 [] (by simp) h0
          | cons d u =>
            by_cases hd : d = '\n'
            · subst hd
              exact h1 u (ih u (by simp at hs; omega))
            · exact h2 (d :: u) (by simp [hd])
                (ih (d :: u) (by simp at hs ⊢; omega))
        · by_cases hb : isBreak c
          · exact h3 c t hb hc (ih t (by simp at hs; omega))
          · exact h4 c t (by simpa using hb) (ih t (by simp at hs; omega))
  intro s
  exact key s.length s le_rfl

/-- pydub `AudioSegment`: sample rate (Hz), bytes per sample, channel count
and raw interleaved PCM bytes (each byte embedded as a `Nat`). -/
structure AudioSegment where
  frame_rate : Nat
  sample_width : Nat
  channels : Nat
  data : List Nat
deriving DecidableEq

/-- pydub `AudioSegment.silent(duration)`: mono 16-bit silence at the
default frame rate 11025 Hz; the frame count is `frame_rate * duration /
1000` rounded down, each frame contributing `sample_width * channels = 2`
zero bytes. -/
def silentSeg (durationMs : Nat) : AudioSegment :=
  { frame_rate := 11025
    sample_width := 2
    channels := 1
    data := List.replicate (11025 * durationMs / 1000 * 2) 0 }

/-- The audioop byte-conversion collaborators that pydub's `set_channels`,
`set_frame_rate` and `set_sample_width` call when a segment must actually
be converted (`tomono`/`tostereo`, `ratecv`, `lin2lin`): each maps the
segment and the target value to the converted raw bytes.  They are
external numeric code (out of the spec's scope, §1), modelled abstractly
at their boundary. -/
structure AudioConv where
  chanConv : AudioSegment → Nat → List Nat
  rateConv : AudioSegment → Nat → List Nat
  widthConv : AudioSegment → Nat → List Nat

/-- pydub `set_channels`: returns the segment unchanged when the channel
count already matches, otherwise converts the raw bytes. -/
def set_channels (cv : AudioConv) (a : AudioSegment) (ch : Nat) : AudioSegment :=
  if a.channels = ch then a
  else { a with channels := ch, data := cv.chanConv a ch }

/-- pydub `set_frame_rate`: returns the segment unchanged when the target
rate is falsy (zero) or already matches, otherwise resamples the raw
bytes via `audioop.ratecv`. -/
def set_frame_rate (cv : AudioConv) (a : AudioSegment) (r : Nat) : AudioSegment :=
  if r = 0 ∨ a.frame_rate = r then a
  else { a with frame_rate := r, data := cv.rateConv a r }

/-- pydub `set_sample_width`: returns the segment unchanged when the
sample width already matches, otherwise converts via `audioop.lin2lin`. -/
def set_sample_width (cv : AudioConv) (a : AudioSegment) (w : Nat) : AudioSegment :=
  if a.sample_width = w then a
  else { a with sample_width := w, data := cv.widthConv a w }

/-- One operand's conversion in pydub `AudioSegment._sync`:
`seg.set_channels(ch).set_frame_rate(r).set_sample_width(w)`. -/
def syncSeg (cv : AudioConv) (a : AudioSegment) (ch r w : Nat) : AudioSegment :=
  set_sample_width cv (set_frame_rate cv (set_channels cv a ch) r) w

/-- pydub `AudioSegment` concatenation (`a + b`, i.e. `append` with
`crossfade=0`): `_sync` both operands — convert each to the maximum
channel count, frame rate and sample width of the two — then concatenate
the synced raw bytes; `_spawn` keeps the synced metadata. -/
def appendSeg (cv : AudioConv) (a b : AudioSegment) : AudioSegment :=
  let ch := max a.channels b.channels
  let r := max a.frame_rate b.frame_rate
  let w := max a.sample_width b.sample_width
  let a2 := syncSeg cv a ch r w
  let b2 := syncSeg cv b ch r w
  { frame_rate := a2.frame_rate
    sample_width := a2.sample_width
    channels := a2.channels
    data := a2.data ++ b2.data }

/-- The inter-sentence pause as it is actually spliced: pydub's default
silence (11025 Hz, 16-bit, mono) conformed by `_sync` to the established
format `(ch, r, w)` — the spec's §4.4 "Pause generated in the established
format". -/
def syncPause (cv : AudioConv) (delay ch r w : Nat) : AudioSegment :=
  syncSeg cv (silentSeg delay) ch r w

/-- A trivial conversion collaborator for concrete test instances whose
execution never reaches a real conversion (formats already agree, or
synthesis fails before any splice). -/
def idConv : AudioConv :=
  ⟨fun a _ => a.data, fun a _ => a.data, fun a _ => a.data⟩

/-- A concrete resampler for test instances: silence in, silence out,
with the frame count scaled by the rate ratio (what `audioop.ratecv`
produces on all-zero input). -/
def zeroResample : AudioConv :=
  ⟨fun a _ => a.data,
   fun a r => List.replicate (a.data.length * r / a.frame_rate) 0,
   fun a _ => a.data⟩

/-- `GladosEventHandler.handle_tts_request` (src/server/handler.py):
tokenize the text into sentences (the NLTK `sent_tokenize` collaborator is
the parameter `sentTok`), return zero-duration silence for an empty
sentence list, otherwise synthesize the first sentence and fold over the
remaining ones, executing `audio += pause + new_line` with a
`delay`-millisecond silent pause at each step (pydub's `+` syncing the
operands' formats as in `appendSeg`).  The GLaDOS engine `runTts` may
raise; its exception (`Except.error`) propagates to the caller.  The
source's only call site uses the default `delay = 250`. -/
def handle_tts_request (cv : AudioConv) (sentTok : Str → List Str)
    (runTts : Str → Except Str AudioSegment) (text : Str) (delay : Nat) :
    Except Str AudioSegment :=
  match sentTok text with
  | [] => .ok (silentSeg 0)
  | s0 :: rest => do
    let audio ← runTts s0
    let pause := silentSeg delay
    rest.foldlM (fun audio sentence => do
      let newLine ← runTts sentence
      pure (appendSeg cv audio (appendSeg cv pause newLine))) audio

/-- Incoming Wyoming protocol events as dispatched on by
`GladosEventHandler.handle_event`: `Describe`, `Synthesize{text}`, or any
other (unexpected) event type. -/
inductive EvIn
  | describe
  | synthesize (text : Str)
  | unexpected

/-- Outgoing Wyoming protocol events written by the handler. -/
inductive EvOut
  | info
  | audioStart (rate width channels : Nat)
  | audioChunk (rate width channels : Nat) (bytes : List Nat)
  | audioStop
deriving DecidableEq

deriving instance DecidableEq for Except

/-- The one uncaught exception the handler can raise: Python's
`ZeroDivisionError` from the chunk-count floor division. -/
inductive PyExc
  | zeroDivision
deriving DecidableEq

/-- Python `a // b`: raises `ZeroDivisionError` when `b = 0`. -/
def pyFloorDiv (a b : Nat) : Except PyExc Nat :=
  if b = 0 then .error .zeroDivision else .ok (a / b)

/-- The framer's chunk count (src/server/handler.py):
`(len(audio_bytes) + bytes_per_chunk - 1) // bytes_per_chunk`. -/
def numChunksOf (len bytesPerChunk : Nat) : Nat :=
  (len + bytesPerChunk - 1) / bytesPerChunk

/-- The framer's i-th slice `audio_bytes[offset : offset + bytes_per_chunk]`
with `offset = i * bytes_per_chunk`. -/
def chunkAt (bs : List Nat) (bytesPerChunk i : Nat) : List Nat :=
  (bs.drop (i * bytesPerChunk)).take bytesPerChunk

/-- All chunk payloads produced by the framer loop
`for i in range(num_chunks)`, in emission (ascending offset) order. -/
def audioChunks (bs : List Nat) (bytesPerChunk : Nat) : List (List Nat) :=
  (List.range (numChunksOf bs.length bytesPerChunk)).map (chunkAt bs bytesPerChunk)

/-- The synthesis step of `handle_event`: an empty normalized text yields
zero-duration silence without calling the engine, otherwise
`handle_tts_request` runs with the default 250 ms delay and any engine
exception surfaces as `Except.error`. -/
def synthResult (cv : AudioConv) (sentTok : Str → List Str)
    (runTts : Str → Except Str AudioSegment) (text : Str) :
    Except Str AudioSegment :=
  if text = [] then .ok (silentSeg 0)
  else handle_tts_request cv sentTok runTts text 250

/-- `GladosEventHandler.handle_event` (src/server/handler.py).  Returns the
list of events written to the client, paired with `.ok keepOpen` on normal
return, or `.error PyExc.zeroDivision` when the chunk computation divides
by zero (a zero `bytes_per_chunk` makes the Python `//` raise after
`AudioStart` has already been written).  A `Describe` event answers with
the info descriptor; an unexpected event is logged and ignored; a
`Synthesize` event runs normalization, synthesis (whose engine exceptions
are caught, returning `True` with no stream events), then emits
`AudioStart`, the chunks, and `AudioStop`. -/
def handle_event (cv : AudioConv) (sentTok : Str → List Str)
    (runTts : Str → Except Str AudioSegment) (autoPunct : Str)
    (samplesPerChunk : Nat) (ev : EvIn) : List EvOut × Except PyExc Bool :=
  match ev with
  | .describe => ([.info], .ok true)
  | .unexpected => ([], .ok true)
  | .synthesize rawText =>
    match synthResult cv sentTok runTts (pyNormalize rawText autoPunct) with
    | .error _ => ([], .ok true)
    | .ok audio =>
      let rate := audio.frame_rate
      let width := audio.sample_width
      let channels := audio.channels
      let startEv := EvOut.audioStart rate width channels
      let audioBytes := audio.data
      let bytesPerChunk := width * channels * samplesPerChunk
      match pyFloorDiv (audioBytes.length + bytesPerChunk - 1) bytesPerChunk with
      | .error e => ([startEv], .error e)
      | .ok numChunks =>
        (startEv ::
          (List.range numChunks).map (fun i =>
            EvOut.audioChunk rate width channels (chunkAt audioBytes bytesPerChunk i))
          ++ [EvOut.audioStop], .ok true)

/-- One session processing incoming events strictly in order, concatenating
the written events; the handler keeps no per-request mutable state. -/
def runSession (cv : AudioConv) (sentTok : Str → List Str)
    (runTts : Str → Except Str AudioSegment) (autoPunct : Str)
    (samplesPerChunk : Nat) (evs : List EvIn) : List EvOut :=
  (evs.map (fun e =>
    (handle_event cv sentTok runTts autoPunct samplesPerChunk e).1)).flatten

/-- The payload of an `AudioChunk` event. -/
def chunkPayload : EvOut → Option (List Nat)
  | .audioChunk _ _ _ b => some b
  | _ => none

/-- The format fields carried by an `AudioChunk` event. -/
def chunkFormat : EvOut → Option (Nat × Nat × Nat)
  | .audioChunk r w c _ => some (r, w, c)
  | _ => none

/-- Recognizers for the stream markers. -/
def isStartEv : EvOut → Bool
  | .audioStart _ _ _ => true
  | _ => false

def isStopEv : EvOut → Bool
  | .audioStop => true
  | _ => false

/-- Modelled from src/__main__.py `main`: the only validation performed
before the server starts serving is that the resolved models directory
exists (`sys.exit(1)` otherwise); `--samples-per-chunk` is parsed with
`type=int` and is subject to no further check.  Returns `some exitCode`
when startup aborts and `none` when the process proceeds to serve. -/
def mainStartupExit (modelsDirExists : Bool) (_samplesPerChunk : Int) : Option Nat :=
  if modelsDirExists then none else some 1

/-- Python prefix test `s.startswith(pat)`. -/
def startsWith : Str → Str → Bool
  | _, [] => true
  | [], _ :: _ => false
  | c :: t, p :: ps => c == p && startsWith t ps

/-- `base_url.format(file=fname)` (src/download.py): substitute the file
name for each "{file}" placeholder.  Fuel-based recursion; the fuel is the
template's length, which suffices because every step consumes at least one
character of the template. -/
def substFileAux (fname : Str) : Nat → Str → Str
  | _, [] => []
  | 0, s => s
  | fuel + 1, c :: t =>
    if startsWith (c :: t) ("{file}".toList) then
      fname ++ substFileAux fname fuel (t.drop 5)
    else c :: substFileAux fname fuel t

/-- The templated model URL `base_url.format(file=fname)`. -/
def formatUrl (template fname : Str) : Str :=
  substFileAux fname template.length template

/-- `is_valid_file` (src/download.py): the file exists, is at least 1 KiB
(1024 bytes), and its MD5 digest matches the expected one.  File contents
are abstract (`Content`); the file's size and digest are given by the
parameters `fsize` and `md5`, and a missing file is `none`. -/
def is_valid_file {Content : Type} (fsize : Content → Nat) (md5 : Content → Str)
    (file : Option Content) (expectedMd5 : Str) : Bool :=
  match file with
  | none => false
  | some c =>
    if fsize c < 1024 then false
    else if md5 c ≠ expectedMd5 then false
    else true

/-- Observable outcome of one iteration of the `ensure_model_exists` loop
(src/download.py): the final file state, the URLs fetched over the network,
and how many times the file was verified after a download. -/
structure FetchOutcome (Content : Type) where
  file : Option Content
  fetched : List Str
  verifiedAfterDownload : Nat
deriving DecidableEq

/-- The body of the `for model in model_files` loop of `ensure_model_exists`
(src/download.py): if the present file is valid, do nothing (no network
access); otherwise remove it, download from `base_url.format(file=fname)`
(percent-quoted by urllib's `_quote_url`, modelled by the abstract
`quoteUrl`), and verify the downloaded file exactly once, removing it again
if the fetch raises or the verification fails.  `fetch` models
`urlopen` + `copyfileobj`, with `none` for a raised exception (after which
the partial file is unlinked). -/
def ensureModelFile {Content : Type} (fsize : Content → Nat) (md5 : Content → Str)
    (quoteUrl : Str → Str) (fetch : Str → Option Content)
    (baseUrl fname expectedMd5 : Str) (file : Option Content) :
    FetchOutcome Content :=
  if is_valid_file fsize md5 file expectedMd5 then
    { file := file, fetched := [], verifiedAfterDownload := 0 }
  else
    let url := quoteUrl (formatUrl baseUrl fname)
    match fetch url with
    | none => { file := none, fetched := [url], verifiedAfterDownload := 0 }
    | some c =>
      if is_valid_file fsize md5 (some c) expectedMd5 then
        { file := some c, fetched := [url], verifiedAfterDownload := 1 }
      else
        { file := none, fetched := [url], verifiedAfterDownload := 1 }

theorem isBreak_isPySpace {c : Char} (h : isBreak c = true) : isPySpace c = true := by
  simp only [isBreak, Bool.or_eq_true, beq_iff_eq] at h
  rcases h with ((h | h) | h) | h <;> subst h <;> decide

theorem splitlines_crlf (u : Str) :
    splitlines ('\r' :: '\n' :: u) = [] :: splitlines u := rfl

theorem splitlines_cr (t : Str) (h : t.head? ≠ some '\n') :
    splitlines ('\r' :: t) = [] :: splitlines t := by
  cases t with
  | nil => rfl
  | cons d u =>
    have hd : d ≠ '\n' := by simpa using h
    conv_lhs => unfold splitlines
    simp [hd]

theorem splitlines_brk {c : Char} (t : Str) (hb : isBreak c = true) (hc : c ≠ '\r') :
    splitlines (c :: t) = [] :: splitlines t := by
  conv_lhs => unfold splitlines
  simp [hb, hc]

theorem splitlines_chr {c : Char} (t : Str) (hb : isBreak c = false) :
    splitlines (c :: t) =
      match splitlines t with
      | [] => [[c]]
      | l :: ls => (c :: l) :: ls := by
  have hc : c ≠ '\r' := by
    intro h
    subst h
    simp [isBreak] at hb
  conv_lhs => unfold splitlines
  simp [hb, hc]

theorem replaceBr_crlf (u : Str) :
    replaceBr ('\r' :: '\n' :: u) = ' ' :: replaceBr u := rfl

theorem replaceBr_cr (t : Str) (h : t.head? ≠ some '\n') :
    replaceBr ('\r' :: t) = ' ' :: replaceBr t := by
  cases t with
  | nil => rfl
  | cons d u =>
    have hd : d ≠ '\n' := by simpa using h
    conv_lhs => unfold replaceBr
    simp [hd]

theorem replaceBr_brk {c : Char} (t : Str) (hb : isBreak c = true) (hc : c ≠ '\r') :
    replaceBr (c :: t) = ' ' :: replaceBr t := by
  conv_lhs => unfold replaceBr
  simp [hb, hc]

theorem replaceBr_chr {c : Char} (t : Str) (hb : isBreak c = false) :
    replaceBr (c :: t) = c :: replaceBr t := by
  have hc : c ≠ '\r' := by
    intro h
    subst h
    simp [isBreak] at hb
  conv_lhs => unfold replaceBr
  simp [hb, hc]

theorem splitlines_ne_nil {s : Str} (h : s ≠ []) : splitlines s ≠ [] := by
  cases s with
  | nil => exact absurd rfl h
  | cons c t =>
    by_cases hc : c = '\r'
    · subst hc
      cases t with
      | nil => simp [splitlines]
      | cons d u =>
        by_cases hd : d = '\n'
        · subst hd; simp [splitlines_crlf]
        · rw [splitlines_cr (d :: u) (by simpa using hd)]; simp
    · by_cases hb : isBreak c
      · rw [splitlines_brk t hb hc]; simp
      · rw [splitlines_chr t (by simpa using hb)]
        match splitlines t with
        | [] => simp
        | l :: ls => simp

theorem replaceBr_eq_nil_iff (s : Str) : replaceBr s = [] ↔ s = [] := by
  constructor
  · intro h
    cases s with
    | nil => rfl
    | cons c t =>
      exfalso
      by_cases hc : c = '\r'
      · subst hc
        cases t with
        | nil => simp [replaceBr] at h
        | cons d u =>
          by_cases hd : d = '\n'
          · subst hd; rw [replaceBr_crlf] at h; simp at h
          · rw [replaceBr_cr (d :: u) (by simpa using hd)] at h; simp at h
      · by_cases hb : isBreak c
        · rw [replaceBr_brk t hb hc] at h; simp at h
        · rw [replaceBr_chr t (by simpa using hb)] at h; simp at h
  · intro h
    subst h
    rfl

theorem joinSpace_nil_cons (l : Str) (ls : List Str) :
    joinSpace ([] :: l :: ls) = ' ' :: joinSpace (l :: ls) := rfl

theorem joinSpace_splitlines_chr {c : Char} (t : Str) (hb : isBreak c = false) :
    joinSpace (splitlines (c :: t)) = c :: joinSpace (splitlines t) := by
  rw [splitlines_chr t hb]
  cases h : splitlines t with
  | nil => rfl
  | cons l ls =>
    cases ls with
    | nil => rfl
    | cons m ms => rfl

theorem lstrip_nil : lstrip [] = [] := rfl

theorem lstrip_cons_space (c : Char) (t : Str) (h : isPySpace c = true) :
    lstrip (c :: t) = lstrip t := by
  simp [lstrip, List.dropWhile, h]

theorem lstrip_cons_keep (c : Char) (t : Str) (h : isPySpace c = false) :
    lstrip (c :: t) = c :: t := by
  simp [lstrip, List.dropWhile, h]

theorem rstrip_cons (c : Char) (t : Str) :
    rstrip (c :: t) =
      match rstrip t with
      | [] => if isPySpace c then [] else [c]
      | d :: u => c :: d :: u := rfl

theorem rstrip_congr (c : Char) {x y : Str} (h : rstrip x = rstrip y) :
    rstrip (c :: x) = rstrip (c :: y) := by
  rw [rstrip_cons, rstrip_cons, h]

theorem getLast?_cons_of_ne (c : Char) {t : Str} (h : t ≠ []) :
    (c :: t).getLast? = t.getLast? := by
  cases t with
  | nil => exact absurd rfl h
  | cons d u => exact List.getLast?_cons_cons

theorem noTrailWS_nil : noTrailWS [] := by
  intro c h
  simp at h

theorem rstrip_noTrailWS (s : Str) : noTrailWS (rstrip s) := by
  induction s with
  | nil => exact noTrailWS_nil
  | cons c t ih =>
    rw [rstrip_cons]
    cases h : rstrip t with
    | nil =>
      by_cases hc : isPySpace c
      · simp [hc]
        exact noTrailWS_nil
      · simp [hc]
        intro d hd
        simp at hd
        subst hd
        simpa using hc
    | cons d u =>
      intro e he
      apply ih e
      rw [h]
      rw [← he, getLast?_cons_of_ne c (by simp)]

theorem rstrip_head? (s : Str) : rstrip s = [] ∨ (rstrip s).head? = s.head? := by
  cases s with
  | nil => exact Or.inl rfl
  | cons c t =>
    rw [rstrip_cons]
    cases rstrip t with
    | nil =>
      by_cases hc : isPySpace c
      · simp [hc]
      · simp [hc]
    | cons d u => simp

theorem noTrailWS_of_cons {c : Char} {t : Str} (h : noTrailWS (c :: t)) (ht : t ≠ []) :
    noTrailWS t := by
  intro e he
  apply h e
  rw [getLast?_cons_of_ne c ht, he]

theorem lstrip_noTrailWS {s : Str} (h : noTrailWS s) : noTrailWS (lstrip s) := by
  induction s with
  | nil => exact h
  | cons c t ih =>
    by_cases hc : isPySpace c
    · rw [lstrip_cons_space c t hc]
      cases t with
      | nil => exact noTrailWS_nil
      | cons d u => exact ih (noTrailWS_of_cons h (by simp))
    · rwa [lstrip_cons_keep c t (by simpa using hc)]

theorem eq_nil_of_splitlines {u : Str} (h : splitlines u = []) : u = [] := by
  by_contra hne
  exact splitlines_ne_nil hne h

theorem replaceBr_lstrip (s : Str) : replaceBr (lstrip s) = lstrip (replaceBr s) := by
  induction s using crInd with
  | h0 => rfl
  | h1 u ih =>
    rw [replaceBr_crlf, lstrip_cons_space '\r' ('\n' :: u) (by decide),
      lstrip_cons_space '\n' u (by decide), lstrip_cons_space ' ' (replaceBr u) (by decide)]
    exact ih
  | h2 t hh ih =>
    rw [replaceBr_cr t hh, lstrip_cons_space '\r' t (by decide),
      lstrip_cons_space ' ' (replaceBr t) (by decide)]
    exact ih
  | h3 c t hb hc ih =>
    rw [replaceBr_brk t hb hc, lstrip_cons_space c t (isBreak_isPySpace hb),
      lstrip_cons_space ' ' (replaceBr t) (by decide)]
    exact ih
  | h4 c t hb ih =>
    by_cases hcs : isPySpace c
    · rw [replaceBr_chr t hb, lstrip_cons_space c t hcs,
        lstrip_cons_space c (replaceBr t) hcs]
      exact ih
    · rw [replaceBr_chr t hb, lstrip_cons_keep c t (by simpa using hcs),
        lstrip_cons_keep c (replaceBr t) (by simpa using hcs), replaceBr_chr t hb]

theorem replaceBr_rstrip (s : Str) : replaceBr (rstrip s) = rstrip (replaceBr s) := by
  induction s using crInd with
  | h0 => rfl
  | h1 u ih =>
    rw [replaceBr_crlf]
    cases h : rstrip u with
    | nil =>
      have h2 : rstrip ('\n' :: u) = [] := by rw [rstrip_cons, h]; rfl
      have h3 : rstrip ('\r' :: '\n' :: u) = [] := by rw [rstrip_cons, h2]; rfl
      have h4 : rstrip (replaceBr u) = [] := by rw [← ih, h]; rfl
      have h5 : rstrip (' ' :: replaceBr u) = [] := by rw [rstrip_cons, h4]; rfl
      rw [h3, h5]
      rfl
    | cons d v =>
      have h2 : rstrip ('\n' :: u) = '\n' :: d :: v := by rw [rstrip_cons, h]
      have h3 : rstrip ('\r' :: '\n' :: u) = '\r' :: '\n' :: d :: v := by
        rw [rstrip_cons, h2]
      have h6 : replaceBr (d :: v) = rstrip (replaceBr u) := by rw [← h]; exact ih
      obtain ⟨e, w, hew⟩ : ∃ e w, rstrip (replaceBr u) = e :: w := by
        rw [← h6]
        cases hrb : replaceBr (d :: v) with
        | nil => exact absurd ((replaceBr_eq_nil_iff _).mp hrb) (by simp)
        | cons e w => exact ⟨e, w, rfl⟩
      have h5 : rstrip (' ' :: replaceBr u) = ' ' :: e :: w := by rw [rstrip_cons, hew]
      rw [h3, h5, replaceBr_crlf, ← h, ih, hew]
  | h2 t hh ih =>
    rw [replaceBr_cr t hh]
    cases h : rstrip t with
    | nil =>
      have h3 : rstrip ('\r' :: t) = [] := by rw [rstrip_cons, h]; rfl
      have h4 : rstrip (replaceBr t) = [] := by rw [← ih, h]; rfl
      have h5 : rstrip (' ' :: replaceBr t) = [] := by rw [rstrip_cons, h4]; rfl
      rw [h3, h5]
      rfl
    | cons d v =>
      have h3 : rstrip ('\r' :: t) = '\r' :: d :: v := by rw [rstrip_cons, h]
      have h6 : replaceBr (d :: v) = rstrip (replaceBr t) := by rw [← h]; exact ih
      obtain ⟨e, w, hew⟩ : ∃ e w, rstrip (replaceBr t) = e :: w := by
        rw [← h6]
        cases hrb : replaceBr (d :: v) with
        | nil => exact absurd ((replaceBr_eq_nil_iff _).mp hrb) (by simp)
        | cons e w => exact ⟨e, w, rfl⟩
      have h5 : rstrip (' ' :: replaceBr t) = ' ' :: e :: w := by rw [rstrip_cons, hew]
      have hd : d ≠ '\n' := by
        rcases rstrip_head? t with hr | hr
        · rw [h] at hr; simp at hr
        · rw [h] at hr
          intro hdeq
          apply hh
          rw [← hr, hdeq]
          rfl
      rw [h3, h5, replaceBr_cr (d :: v) (by simpa using hd), ← h, ih, hew]
  | h3 c t hb hc ih =>
    rw [replaceBr_brk t hb hc]
    cases h : rstrip t with
    | nil =>
      have h3 : rstrip (c :: t) = [] := by
        rw [rstrip_cons, h]
        simp [isBreak_isPySpace hb]
      have h4 : rstrip (replaceBr t) = [] := by rw [← ih, h]; rfl
      have h5 : rstrip (' ' :: replaceBr t) = [] := by rw [rstrip_cons, h4]; rfl
      rw [h3, h5]
      rfl
    | cons d v =>
      have h3 : rstrip (c :: t) = c :: d :: v := by rw [rstrip_cons, h]
      have h6 : replaceBr (d :: v) = rstrip (replaceBr t) := by rw [← h]; exact ih
      obtain ⟨e, w, hew⟩ : ∃ e w, rstrip (replaceBr t) = e :: w := by
        rw [← h6]
        cases hrb : replaceBr (d :: v) with
        | nil => exact absurd ((replaceBr_eq_nil_iff _).mp hrb) (by simp)
        | cons e w => exact ⟨e, w, rfl⟩
      have h5 : rstrip (' ' :: replaceBr t) = ' ' :: e :: w := by rw [rstrip_cons, hew]
      rw [h3, h5, replaceBr_brk (d :: v) hb hc, ← h, ih, hew]
  | h4 c t hb ih =>
    rw [replaceBr_chr t hb]
    cases h : rstrip t with
    | nil =>
      have h4 : rstrip (replaceBr t) = [] := by rw [← ih, h]; rfl
      by_cases hcs : isPySpace c
      · have h3 : rstrip (c :: t) = [] := by rw [rstrip_cons, h]; simp [hcs]
        have h5 : rstrip (c :: replaceBr t) = [] := by rw [rstrip_cons, h4]; simp [hcs]
        rw [h3, h5]
        rfl
      · have h3 : rstrip (c :: t) = [c] := by rw [rstrip_cons, h]; simp [hcs]
        have h5 : rstrip (c :: replaceBr t) = [c] := by rw [rstrip_cons, h4]; simp [hcs]
        rw [h3, h5, replaceBr_chr [] hb]
        rfl
    | cons d v =>
      have h3 : rstrip (c :: t) = c :: d :: v := by rw [rstrip_cons, h]
      have h6 : replaceBr (d :: v) = rstrip (replaceBr t) := by rw [← h]; exact ih
      obtain ⟨e, w, hew⟩ : ∃ e w, rstrip (replaceBr t) = e :: w := by
        rw [← h6]
        cases hrb : replaceBr (d :: v) with
        | nil => exact absurd ((replaceBr_eq_nil_iff _).mp hrb) (by simp)
        | cons e w => exact ⟨e, w, rfl⟩
      have h5 : rstrip (c :: replaceBr t) = c :: e :: w := by rw [rstrip_cons, hew]
      rw [h3, h5, replaceBr_chr (d :: v) hb, ← h, ih, hew]

theorem rstrip_join_splitlines (s : Str) :
    rstrip (joinSpace (splitlines s)) = rstrip (replaceBr s) := by
  induction s using crInd with
  | h0 => rfl
  | h1 u ih =>
    rw [splitlines_crlf, replaceBr_crlf]
    cases h : splitlines u with
    | nil =>
      have hu : u = [] := eq_nil_of_splitlines h
      subst hu
      rfl
    | cons l ls =>
      rw [joinSpace_nil_cons]
      rw [h] at ih
      exact rstrip_congr ' ' ih
  | h2 t hh ih =>
    rw [splitlines_cr t hh, replaceBr_cr t hh]
    cases h : splitlines t with
    | nil =>
      have ht : t = [] := eq_nil_of_splitlines h
      subst ht
      rfl
    | cons l ls =>
      rw [joinSpace_nil_cons]
      rw [h] at ih
      exact rstrip_congr ' ' ih
  | h3 c t hb hc ih =>
    rw [splitlines_brk t hb hc, replaceBr_brk t hb hc]
    cases h : splitlines t with
    | nil =>
      have ht : t = [] := eq_nil_of_splitlines h
      subst ht
      rfl
    | cons l ls =>
      rw [joinSpace_nil_cons]
      rw [h] at ih
      exact rstrip_congr ' ' ih
  | h4 c t hb ih =>
    rw [joinSpace_splitlines_chr t hb, replaceBr_chr t hb]
    exact rstrip_congr c ih

theorem join_splitlines_of_noTrail (s : Str) (hnt : noTrailWS s) :
    joinSpace (splitlines s) = replaceBr s := by
  induction s using crInd with
  | h0 => rfl
  | h1 u ih =>
    have hu : u ≠ [] := by
      intro hu
      subst hu
      exact absurd (hnt '\n' rfl) (by decide)
    have hnu : noTrailWS u := by
      intro e he
      apply hnt e
      rw [getLast?_cons_of_ne '\r' (by simp), getLast?_cons_of_ne '\n' hu, he]
    cases h : splitlines u with
    | nil => exact absurd (eq_nil_of_splitlines h) hu
    | cons l ls =>
      rw [splitlines_crlf, replaceBr_crlf, h, joinSpace_nil_cons, ← h, ih hnu]
  | h2 t hh ih =>
    have ht : t ≠ [] := by
      intro ht
      subst ht
      exact absurd (hnt '\r' rfl) (by decide)
    have hnu : noTrailWS t := noTrailWS_of_cons hnt ht
    cases h : splitlines t with
    | nil => exact absurd (eq_nil_of_splitlines h) ht
    | cons l ls =>
      rw [splitlines_cr t hh, replaceBr_cr t hh, h, joinSpace_nil_cons, ← h, ih hnu]
  | h3 c t hb hc ih =>
    have ht : t ≠ [] := by
      intro ht
      subst ht
      exact absurd (hnt c rfl) (by simp [isBreak_isPySpace hb])
    have hnu : noTrailWS t := noTrailWS_of_cons hnt ht
    cases h : splitlines t with
    | nil => exact absurd (eq_nil_of_splitlines h) ht
    | cons l ls =>
      rw [splitlines_brk t hb hc, replaceBr_brk t hb hc, h, joinSpace_nil_cons, ← h, ih hnu]
  | h4 c t hb ih =>
    cases t with
    | nil =>
      rw [splitlines_chr [] hb, replaceBr_chr [] hb]
      rfl
    | cons d u =>
      have hnu : noTrailWS (d :: u) := noTrailWS_of_cons hnt (by simp)
      rw [joinSpace_splitlines_chr (d :: u) hb, replaceBr_chr (d :: u) hb, ih hnu]

/-- Key algebraic fact about `handle_event`'s normalization: joining the
lines of the stripped text equals stripping the line-joined text, so the
source's strip-then-join order agrees with the spec's join-then-trim
wording. -/
theorem joinSpace_splitlines_pyStrip (s : Str) :
    joinSpace (splitlines (pyStrip s)) = pyStrip (joinSpace (splitlines s)) := by
  have lhs : joinSpace (splitlines (pyStrip s)) = lstrip (rstrip (replaceBr s)) := by
    rw [show pyStrip s = lstrip (rstrip s) from rfl,
      join_splitlines_of_noTrail _ (lstrip_noTrailWS (rstrip_noTrailWS s)),
      replaceBr_lstrip, replaceBr_rstrip]
  have rhs : pyStrip (joinSpace (splitlines s)) = lstrip (rstrip (replaceBr s)) := by
    rw [show pyStrip (joinSpace (splitlines s)) =
        lstrip (rstrip (joinSpace (splitlines s))) from rfl,
      rstrip_join_splitlines]
  rw [lhs, rhs]

/-- Claim C5: the handler's normalization equals the reference definition —
all lines of the raw text joined with a single space with leading/trailing
whitespace trimmed, then, if the result is non-empty and does not already
end with a character of the punctuation set, the first character of the set
is appended (nothing is appended for an empty set; empty or whitespace-only
input normalizes to the empty string); in particular
normalize("Line1\nLine2", ".?!") = "Line1 Line2.". -/
theorem normalize_matches_reference (raw punct : Str) :
    pyNormalize raw punct = normalizeSpec raw punct ∧
    pyNormalize ("Line1\nLine2".toList) (".?!".toList) = ("Line1 Line2.".toList) := by
  constructor
  · unfold pyNormalize normalizeSpec
    rw [joinSpace_splitlines_pyStrip]
  · decide

/-- Claim C6 (counterexample): the input " " is a non-empty text, yet with
the default punctuation configuration ".?!" it normalizes to the empty
string, whose output therefore does not end with any character of the
configured punctuation set — refuting the claim as stated. -/
theorem normalize_counterexample :
    (" ".toList ≠ ([] : Str)) ∧
    pyNormalize (" ".toList) (".?!".toList) = [] ∧
    ((".?!".toList).any
      (fun c => endsWith (pyNormalize (" ".toList) (".?!".toList)) c)) = false := by
  refine ⟨by decide, by decide, by decide⟩

/-- Claim C6 (amended): for every input whose line-joined, stripped text is
non-empty, under a non-empty configured punctuation set, the normalized
output ends with a character of the set. -/
theorem normalize_ends_with_punct (raw punct : Str) (hp : punct ≠ [])
    (ht : joinSpace (splitlines (pyStrip raw)) ≠ []) :
    punct.any (fun c => endsWith (pyNormalize raw punct) c) = true := by
  cases punct with
  | nil => exact absurd rfl hp
  | cons p ps =>
    have hred : pyNormalize raw (p :: ps) =
        (if joinSpace (splitlines (pyStrip raw)) = [] then
          joinSpace (splitlines (pyStrip raw))
        else if (p :: ps).any
            (fun c => endsWith (joinSpace (splitlines (pyStrip raw))) c) then
          joinSpace (splitlines (pyStrip raw))
        else joinSpace (splitlines (pyStrip raw)) ++ [p]) := rfl
    rw [hred, if_neg ht]
    by_cases ha : ((p :: ps).any
        (fun c => endsWith (joinSpace (splitlines (pyStrip raw))) c)) = true
    · rw [if_pos ha]
      exact ha
    · rw [if_neg (by simpa using ha)]
      have hlast : endsWith (joinSpace (splitlines (pyStrip raw)) ++ [p]) p = true := by
        unfold endsWith
        rw [List.getLast?_concat]
        simp
      simp [List.any_cons, hlast]

/-- Witness for the amended Claim C6 at raw text "hi" and punctuation
set ".?!". -/
theorem normalize_ends_with_punct_witness :
    (".?!".toList ≠ ([] : Str)) ∧
    (joinSpace (splitlines (pyStrip ("hi".toList))) ≠ []) ∧
    ((".?!".toList).any
      (fun c => endsWith (pyNormalize ("hi".toList) (".?!".toList)) c)) = true :=
  ⟨by decide, by decide,
    normalize_ends_with_punct ("hi".toList) (".?!".toList) (by decide) (by decide)⟩

theorem numChunksOf_zero {C : Nat} (hC : 0 < C) : numChunksOf 0 C = 0 := by
  unfold numChunksOf
  have h : C - 1 < C := by omega
  simp [Nat.div_eq_of_lt h]

theorem numChunksOf_pos {L C : Nat} (hC : 0 < C) (hL : 0 < L) :
    0 < numChunksOf L C := by
  have h1 : 1 * C ≤ L + C - 1 := by omega
  have h2 := (Nat.le_div_iff_mul_le hC).mpr h1
  unfold numChunksOf
  omega

theorem numChunksOf_mul_le {L C : Nat} (hC : 0 < C) : L ≤ numChunksOf L C * C := by
  by_contra hlt
  push_neg at hlt
  have h1 : (numChunksOf L C + 1) * C ≤ L + C - 1 := by
    rw [Nat.succ_mul]
    generalize numChunksOf L C * C = x at *
    omega
  have h2 : numChunksOf L C + 1 ≤ (L + C - 1) / C := (Nat.le_div_iff_mul_le hC).mpr h1
  unfold numChunksOf at h2
  omega

theorem numChunksOf_pred_mul_lt {L C : Nat} (hC : 0 < C) (hL : 0 < L) :
    (numChunksOf L C - 1) * C < L := by
  have hn : 0 < numChunksOf L C := numChunksOf_pos hC hL
  have hub : numChunksOf L C * C ≤ L + C - 1 := Nat.div_mul_le_self (L + C - 1) C
  have hsub : (numChunksOf L C - 1) * C = numChunksOf L C * C - C := by
    rw [Nat.sub_mul, one_mul]
  generalize numChunksOf L C * C = y at *
  generalize (numChunksOf L C - 1) * C = x at *
  omega

theorem numChunksOf_one {L C : Nat} (hC : 0 < C) (hL : 0 < L) (hle : L ≤ C) :
    numChunksOf L C = 1 := by
  have hge : 1 ≤ (L + C - 1) / C := (Nat.le_div_iff_mul_le hC).mpr (by omega)
  have hlt : (L + C - 1) / C < 2 := (Nat.div_lt_iff_lt_mul hC).mpr (by omega)
  unfold numChunksOf
  omega

theorem numChunksOf_step {L C : Nat} (hC : 0 < C) (hlt : C < L) :
    numChunksOf L C = numChunksOf (L - C) C + 1 := by
  unfold numChunksOf
  have h : L + C - 1 = (L - C + C - 1) + C := by omega
  rw [h, Nat.add_div_right _ hC]

theorem chunkAt_length (bs : List Nat) (C i : Nat) :
    (chunkAt bs C i).length = min C (bs.length - i * C) := by
  simp [chunkAt]

theorem chunkAt_zero (bs : List Nat) (C : Nat) : chunkAt bs C 0 = bs.take C := by
  simp [chunkAt]

theorem chunkAt_succ (bs : List Nat) (C i : Nat) :
    chunkAt bs C (i + 1) = chunkAt (bs.drop C) C i := by
  unfold chunkAt
  rw [List.drop_drop, Nat.succ_mul, Nat.add_comm (i * C) C]

theorem audioChunks_length (bs : List Nat) (C : Nat) :
    (audioChunks bs C).length = numChunksOf bs.length C := by
  simp [audioChunks]

theorem audioChunks_getElem? {bs : List Nat} {C i : Nat}
    (hi : i < numChunksOf bs.length C) :
    (audioChunks bs C)[i]? = some (chunkAt bs C i) := by
  unfold audioChunks
  rw [List.getElem?_map, List.getElem?_range hi]
  rfl

theorem mid_chunk_full {bs : List Nat} {C i : Nat} (hC : 0 < C)
    (hi : i + 1 < numChunksOf bs.length C) :
    (chunkAt bs C i).length = C := by
  have h1 : i + 2 ≤ (bs.length + C - 1) / C := hi
  have h2 : (i + 2) * C ≤ bs.length + C - 1 := (Nat.le_div_iff_mul_le hC).mp h1
  have h3 : (i + 2) * C = i * C + C + C := by ring
  rw [chunkAt_length]
  generalize i * C = x at *
  omega

theorem last_chunk_length {bs : List Nat} {C : Nat} (hC : 0 < C)
    (hL : 0 < bs.length) :
    (chunkAt bs C (numChunksOf bs.length C - 1)).length =
      bs.length - (numChunksOf bs.length C - 1) * C := by
  have h1 := numChunksOf_pred_mul_lt hC hL
  rw [chunkAt_length]
  have h2 : bs.length ≤ numChunksOf bs.length C * C := numChunksOf_mul_le hC
  have hn : 0 < numChunksOf bs.length C := numChunksOf_pos hC hL
  have h3 : numChunksOf bs.length C * C = (numChunksOf bs.length C - 1) * C + C := by
    rw [Nat.sub_mul, one_mul]
    have := Nat.one_le_iff_ne_zero.mpr (Nat.pos_iff_ne_zero.mp hn)
    have hle : C ≤ numChunksOf bs.length C * C := Nat.le_mul_of_pos_left C hn
    omega
  generalize (numChunksOf bs.length C - 1) * C = x at *
  omega

theorem audioChunks_getLast {bs : List Nat} {C : Nat} (hC : 0 < C)
    (hL : 0 < bs.length) :
    (audioChunks bs C).getLast? =
      some (chunkAt bs C (numChunksOf bs.length C - 1)) := by
  obtain ⟨m, hm⟩ : ∃ m, numChunksOf bs.length C = m + 1 :=
    ⟨numChunksOf bs.length C - 1, by have := numChunksOf_pos hC hL; omega⟩
  unfold audioChunks
  rw [hm, List.range_succ, List.map_append]
  simp

theorem audioChunks_flatten {C : Nat} (hC : 0 < C) :
    ∀ bs : List Nat, (audioChunks bs C).flatten = bs := by
  have key : ∀ n (bs : List Nat), bs.length ≤ n → (audioChunks bs C).flatten = bs := by
    intro n
    induction n with
    | zero =>
      intro bs hbs
      have h : bs = [] := List.length_eq_zero.mp (Nat.le_zero.mp hbs)
      subst h
      simp [audioChunks, numChunksOf_zero hC]
    | succ n ih =>
      intro bs hbs
      by_cases h0 : bs.length = 0
      · have h : bs = [] := List.length_eq_zero.mp h0
        subst h
        simp [audioChunks, numChunksOf_zero hC]
      · by_cases hle : bs.length ≤ C
        · have h1 : numChunksOf bs.length C = 1 :=
            numChunksOf_one hC (Nat.pos_of_ne_zero h0) hle
          have h2 : audioChunks bs C = [chunkAt bs C 0] := by
            unfold audioChunks
            rw [h1]
            rfl
          rw [h2, chunkAt_zero]
          simp [List.take_of_length_le hle]
        · push_neg at hle
          have hstep : numChunksOf bs.length C = numChunksOf (bs.length - C) C + 1 :=
            numChunksOf_step hC hle
          have hlen : (bs.drop C).length = bs.length - C := by simp
          have ihd := ih (bs.drop C) (by rw [hlen]; omega)
          unfold audioChunks
          rw [hstep, List.range_succ_eq_map, List.map_cons, List.map_map,
            List.flatten_cons]
          have hcomp :
              (List.range (numChunksOf (bs.length - C) C)).map
                (chunkAt bs C ∘ Nat.succ) =
              (List.range (numChunksOf (bs.length - C) C)).map
                (chunkAt (bs.drop C) C) := by
            apply List.map_congr_left
            intro i _
            exact chunkAt_succ bs C i
          rw [hcomp, chunkAt_zero]
          unfold audioChunks at ihd
          rw [hlen] at ihd
          rw [ihd]
          exact List.take_append_drop C bs
  intro bs
  exact key bs.length bs le_rfl

/-- Claim C1: for every waveform byte buffer `bs` (of `L = bs.length` bytes)
and chunk size `C = width * channels * samplesPerChunk` with `C > 0`, the
framer emits exactly `ceil(L / C)` chunks in ascending offset order (chunk
`i` is the slice at offset `i*C`), every chunk except possibly the last has
length exactly `C`, the last chunk's length is `L - (chunkCount-1)*C` and
lies in `[1, C]`, unless `L = 0` in which case zero chunks are emitted;
in particular with `width=2, channels=1, samplesPerChunk=1024` (`C = 2048`)
and `L = 5000` the framer emits 3 chunks of lengths 2048, 2048, 904. -/
theorem framer_chunk_count_and_sizes (bs : List Nat)
    (width channels samplesPerChunk C : Nat)
    (hC : C = width * channels * samplesPerChunk) (hpos : 0 < C) :
    (audioChunks bs C).length = numChunksOf bs.length C ∧
    (0 < bs.length →
      (numChunksOf bs.length C - 1) * C < bs.length ∧
      bs.length ≤ numChunksOf bs.length C * C) ∧
    (∀ i, i < numChunksOf bs.length C →
      (audioChunks bs C)[i]? = some (chunkAt bs C i)) ∧
    (∀ i, i + 1 < numChunksOf bs.length C → (chunkAt bs C i).length = C) ∧
    (0 < bs.length →
      (audioChunks bs C).getLast? =
        some (chunkAt bs C (numChunksOf bs.length C - 1)) ∧
      (chunkAt bs C (numChunksOf bs.length C - 1)).length =
        bs.length - (numChunksOf bs.length C - 1) * C ∧
      1 ≤ bs.length - (numChunksOf bs.length C - 1) * C ∧
      bs.length - (numChunksOf bs.length C - 1) * C ≤ C) ∧
    (bs.length = 0 → audioChunks bs C = []) ∧
    (audioChunks (List.replicate 5000 0) 2048).map List.length =
      [2048, 2048, 904] := by
  refine ⟨audioChunks_length bs C, ?_, ?_, ?_, ?_, ?_, ?_⟩
  · intro hL
    exact ⟨numChunksOf_pred_mul_lt hpos hL, numChunksOf_mul_le hpos⟩
  · intro i hi
    exact audioChunks_getElem? hi
  · intro i hi
    exact mid_chunk_full hpos hi
  · intro hL
    refine ⟨audioChunks_getLast hpos hL, last_chunk_length hpos hL, ?_, ?_⟩
    · have h1 := numChunksOf_pred_mul_lt hpos hL
      omega
    · have h2 := numChunksOf_mul_le (L := bs.length) hpos
      have hn := numChunksOf_pos hpos hL
      have h3 : numChunksOf bs.length C * C =
          (numChunksOf bs.length C - 1) * C + C := by
        rw [Nat.sub_mul, one_mul]
        have hle : C ≤ numChunksOf bs.length C * C := Nat.le_mul_of_pos_left C hn
        omega
      generalize (numChunksOf bs.length C - 1) * C = x at *
      generalize numChunksOf bs.length C * C = y at *
      omega
  · intro hL
    unfold audioChunks
    rw [hL, numChunksOf_zero hpos]
    rfl
  · have hlen : (List.replicate 5000 (0 : Nat)).length = 5000 :=
      List.length_replicate 5000 0
    have hn : numChunksOf (List.replicate 5000 (0 : Nat)).length 2048 = 3 := by
      rw [hlen]
      decide
    unfold audioChunks
    rw [hn, show List.range 3 = [0, 1, 2] from rfl, List.map_map]
    rw [show (List.length ∘ chunkAt (List.replicate 5000 (0 : Nat)) 2048) =
        fun i => min 2048 (5000 - i * 2048) by
      funext i
      simp only [Function.comp_apply, chunkAt_length, hlen]]
    decide

/-- Witness for Claim C1 at the spec's concrete configuration
(width 2, channels 1, samplesPerChunk 1024, a 5000-byte buffer). -/
theorem framer_chunk_count_and_sizes_witness :
    (2048 = 2 * 1 * 1024 ∧ 0 < 2048) ∧
    (audioChunks (List.replicate 5000 0) 2048).map List.length =
      [2048, 2048, 904] :=
  ⟨⟨by decide, by decide⟩,
    (framer_chunk_count_and_sizes (List.replicate 5000 0) 2 1 1024 2048
      (by decide) (by decide)).2.2.2.2.2.2⟩

theorem set_channels_channels (cv : AudioConv) (a : AudioSegment) (ch : Nat) :
    (set_channels cv a ch).channels = ch := by
  unfold set_channels
  by_cases h : a.channels = ch
  · rw [if_pos h]
    exact h
  · rw [if_neg h]

theorem set_channels_frame_rate (cv : AudioConv) (a : AudioSegment) (ch : Nat) :
    (set_channels cv a ch).frame_rate = a.frame_rate := by
  unfold set_channels
  by_cases h : a.channels = ch
  · rw [if_pos h]
  · rw [if_neg h]

theorem set_channels_sample_width (cv : AudioConv) (a : AudioSegment) (ch : Nat) :
    (set_channels cv a ch).sample_width = a.sample_width := by
  unfold set_channels
  by_cases h : a.channels = ch
  · rw [if_pos h]
  · rw [if_neg h]

theorem set_frame_rate_frame_rate (cv : AudioConv) (a : AudioSegment) (r : Nat)
    (h : a.frame_rate ≤ r) : (set_frame_rate cv a r).frame_rate = r := by
  unfold set_frame_rate
  by_cases hg : r = 0 ∨ a.frame_rate = r
  · rw [if_pos hg]
    rcases hg with hg | hg
    · omega
    · exact hg
  · rw [if_neg hg]

theorem set_frame_rate_channels (cv : AudioConv) (a : AudioSegment) (r : Nat) :
    (set_frame_rate cv a r).channels = a.channels := by
  unfold set_frame_rate
  by_cases hg : r = 0 ∨ a.frame_rate = r
  · rw [if_pos hg]
  · rw [if_neg hg]

theorem set_frame_rate_sample_width (cv : AudioConv) (a : AudioSegment) (r : Nat) :
    (set_frame_rate cv a r).sample_width = a.sample_width := by
  unfold set_frame_rate
  by_cases hg : r = 0 ∨ a.frame_rate = r
  · rw [if_pos hg]
  · rw [if_neg hg]

theorem set_sample_width_sample_width (cv : AudioConv) (a : AudioSegment) (w : Nat) :
    (set_sample_width cv a w).sample_width = w := by
  unfold set_sample_width
  by_cases h : a.sample_width = w
  · rw [if_pos h]
    exact h
  · rw [if_neg h]

theorem set_sample_width_frame_rate (cv : AudioConv) (a : AudioSegment) (w : Nat) :
    (set_sample_width cv a w).frame_rate = a.frame_rate := by
  unfold set_sample_width
  by_cases h : a.sample_width = w
  · rw [if_pos h]
  · rw [if_neg h]

theorem set_sample_width_channels (cv : AudioConv) (a : AudioSegment) (w : Nat) :
    (set_sample_width cv a w).channels = a.channels := by
  unfold set_sample_width
  by_cases h : a.sample_width = w
  · rw [if_pos h]
  · rw [if_neg h]

theorem syncSeg_channels (cv : AudioConv) (a : AudioSegment) (ch r w : Nat) :
    (syncSeg cv a ch r w).channels = ch := by
  unfold syncSeg
  rw [set_sample_width_channels, set_frame_rate_channels, set_channels_channels]

theorem syncSeg_sample_width (cv : AudioConv) (a : AudioSegment) (ch r w : Nat) :
    (syncSeg cv a ch r w).sample_width = w := by
  unfold syncSeg
  rw [set_sample_width_sample_width]

theorem syncSeg_frame_rate (cv : AudioConv) (a : AudioSegment) (ch r w : Nat)
    (h : a.frame_rate ≤ r) : (syncSeg cv a ch r w).frame_rate = r := by
  unfold syncSeg
  rw [set_sample_width_frame_rate, set_frame_rate_frame_rate]
  rw [set_channels_frame_rate]
  exact h

theorem syncSeg_self (cv : AudioConv) {a : AudioSegment} {ch r w : Nat}
    (h3 : a.channels = ch) (h1 : a.frame_rate = r) (h2 : a.sample_width = w) :
    syncSeg cv a ch r w = a := by
  unfold syncSeg set_channels
  rw [if_pos h3]
  unfold set_frame_rate
  rw [if_pos (Or.inr h1)]
  unfold set_sample_width
  rw [if_pos h2]

theorem appendSeg_channels (cv : AudioConv) (a b : AudioSegment) :
    (appendSeg cv a b).channels = max a.channels b.channels := by
  unfold appendSeg
  simp only [syncSeg_channels]

theorem appendSeg_sample_width (cv : AudioConv) (a b : AudioSegment) :
    (appendSeg cv a b).sample_width = max a.sample_width b.sample_width := by
  unfold appendSeg
  simp only [syncSeg_sample_width]

theorem appendSeg_same_format (cv : AudioConv) {a b : AudioSegment} {ch r w : Nat}
    (ha1 : a.frame_rate = r) (ha2 : a.sample_width = w) (ha3 : a.channels = ch)
    (hb1 : b.frame_rate = r) (hb2 : b.sample_width = w) (hb3 : b.channels = ch) :
    appendSeg cv a b = ⟨r, w, ch, a.data ++ b.data⟩ := by
  unfold appendSeg
  simp only [ha1, ha2, ha3, hb1, hb2, hb3, Nat.max_self]
  rw [syncSeg_self cv ha3 ha1 ha2, syncSeg_self cv hb3 hb1 hb2, ha1, ha2, ha3]

theorem syncPause_channels (cv : AudioConv) (delay ch r w : Nat) :
    (syncPause cv delay ch r w).channels = ch := syncSeg_channels cv _ ch r w

theorem syncPause_sample_width (cv : AudioConv) (delay ch r w : Nat) :
    (syncPause cv delay ch r w).sample_width = w := syncSeg_sample_width cv _ ch r w

theorem syncPause_frame_rate (cv : AudioConv) (delay ch r w : Nat)
    (hr : 11025 ≤ r) : (syncPause cv delay ch r w).frame_rate = r :=
  syncSeg_frame_rate cv _ ch r w hr

theorem appendSeg_pause_step (cv : AudioConv) (delay r w ch : Nat)
    (hr : 11025 ≤ r) (hw : 2 ≤ w) (hc : 1 ≤ ch) (audio nl : AudioSegment)
    (ha1 : audio.frame_rate = r) (ha2 : audio.sample_width = w)
    (ha3 : audio.channels = ch)
    (hn1 : nl.frame_rate = r) (hn2 : nl.sample_width = w)
    (hn3 : nl.channels = ch) :
    appendSeg cv audio (appendSeg cv (silentSeg delay) nl) =
      ⟨r, w, ch, audio.data ++ ((syncPause cv delay ch r w).data ++ nl.data)⟩ := by
  have hinner : appendSeg cv (silentSeg delay) nl =
      ⟨r, w, ch, (syncPause cv delay ch r w).data ++ nl.data⟩ := by
    unfold appendSeg
    have hm1 : max (silentSeg delay).channels nl.channels = ch := by
      rw [hn3]
      exact Nat.max_eq_right hc
    have hm2 : max (silentSeg delay).frame_rate nl.frame_rate = r := by
      rw [hn1]
      exact Nat.max_eq_right hr
    have hm3 : max (silentSeg delay).sample_width nl.sample_width = w := by
      rw [hn2]
      exact Nat.max_eq_right hw
    simp only [hm1, hm2, hm3]
    rw [syncSeg_self cv hn3 hn1 hn2,
      show syncSeg cv (silentSeg delay) ch r w = syncPause cv delay ch r w from rfl,
      syncPause_frame_rate cv delay ch r w hr, syncPause_sample_width,
      syncPause_channels]
  rw [hinner]
  exact appendSeg_same_format cv ha1 ha2 ha3 rfl rfl rfl

theorem handle_event_synthesize_ok (cv : AudioConv) (sentTok : Str → List Str)
    (runTts : Str → Except Str AudioSegment) (autoPunct : Str)
    (spc : Nat) (raw : Str) (audio : AudioSegment)
    (hok : synthResult cv sentTok runTts (pyNormalize raw autoPunct) = .ok audio)
    (hbpc : 0 < audio.sample_width * audio.channels * spc) :
    handle_event cv sentTok runTts autoPunct spc (.synthesize raw) =
      (EvOut.audioStart audio.frame_rate audio.sample_width audio.channels ::
        ((audioChunks audio.data (audio.sample_width * audio.channels * spc)).map
          (EvOut.audioChunk audio.frame_rate audio.sample_width audio.channels)
         ++ [EvOut.audioStop]), .ok true) := by
  unfold handle_event
  simp only [hok]
  unfold pyFloorDiv
  rw [if_neg (by omega)]
  unfold audioChunks numChunksOf
  rw [List.map_map]
  rfl

/-- Claim C2: for every `Synthesize` event whose synthesis step succeeds
(and under the framer precondition of a positive chunk size), the dispatcher
emits exactly one `AudioStart` carrying the waveform's rate, width and
channels, then the chunk events in order, then exactly one `AudioStop`,
in that exact order, and returns `True`; this holds even for an empty byte
buffer, where zero chunks are emitted but `AudioStart` and `AudioStop`
still frame the response. -/
theorem synthesize_stream_order (cv : AudioConv) (sentTok : Str → List Str)
    (runTts : Str → Except Str AudioSegment) (autoPunct : Str) (spc : Nat)
    (raw : Str) (audio : AudioSegment)
    (hok : synthResult cv sentTok runTts (pyNormalize raw autoPunct) = .ok audio)
    (hbpc : 0 < audio.sample_width * audio.channels * spc) :
    (handle_event cv sentTok runTts autoPunct spc (.synthesize raw)).1 =
      EvOut.audioStart audio.frame_rate audio.sample_width audio.channels ::
        ((audioChunks audio.data (audio.sample_width * audio.channels * spc)).map
          (EvOut.audioChunk audio.frame_rate audio.sample_width audio.channels)
         ++ [EvOut.audioStop]) ∧
    ((handle_event cv sentTok runTts autoPunct spc (.synthesize raw)).1.filter
      isStartEv).length = 1 ∧
    ((handle_event cv sentTok runTts autoPunct spc (.synthesize raw)).1.filter
      isStopEv).length = 1 ∧
    (handle_event cv sentTok runTts autoPunct spc (.synthesize raw)).2 = .ok true ∧
    (audio.data = [] →
      (handle_event cv sentTok runTts autoPunct spc (.synthesize raw)).1 =
        [EvOut.audioStart audio.frame_rate audio.sample_width audio.channels,
         EvOut.audioStop]) := by
  have h := handle_event_synthesize_ok cv sentTok runTts autoPunct spc raw audio hok hbpc
  refine ⟨by rw [h], ?_, ?_, by rw [h], ?_⟩
  · rw [h]
    simp [List.filter_append, List.filter_map, isStartEv, Function.comp]
  · rw [h]
    simp [List.filter_append, List.filter_map, isStopEv, Function.comp]
  · intro hd
    rw [h]
    have hz : audioChunks audio.data (audio.sample_width * audio.channels * spc) = [] := by
      unfold audioChunks
      rw [hd]
      simp [numChunksOf_zero hbpc]
    rw [hz]
    rfl

/-- Witness for Claim C2: a one-sentence request against an engine that
returns a fixed 4-byte waveform, with samples-per-chunk 2. -/
theorem synthesize_stream_order_witness :
    synthResult idConv (fun s => [s])
        (fun _ => Except.ok ⟨22050, 2, 1, [1, 2, 3, 4]⟩)
        (pyNormalize ("hi".toList) (".?!".toList)) =
      .ok ⟨22050, 2, 1, [1, 2, 3, 4]⟩ ∧
    0 < 2 * 1 * 2 ∧
    (handle_event idConv (fun s => [s])
        (fun _ => Except.ok ⟨22050, 2, 1, [1, 2, 3, 4]⟩)
        (".?!".toList) 2 (.synthesize ("hi".toList))).1 =
      EvOut.audioStart 22050 2 1 ::
        ((audioChunks [1, 2, 3, 4] (2 * 1 * 2)).map (EvOut.audioChunk 22050 2 1)
         ++ [EvOut.audioStop]) :=
  ⟨by decide, by decide,
    (synthesize_stream_order idConv (fun s => [s])
      (fun _ => Except.ok ⟨22050, 2, 1, [1, 2, 3, 4]⟩)
      (".?!".toList) 2 ("hi".toList) ⟨22050, 2, 1, [1, 2, 3, 4]⟩
      (by decide) (by decide)).1⟩

/-- Claim C3: if the synthesis engine raises for any sentence of a request
(so `handle_tts_request` propagates the exception), the dispatcher emits no
stream events at all — neither `AudioStart` nor any `AudioChunk` nor
`AudioStop` — and still returns `True`; a subsequent request on the same
session is processed exactly as it would be on its own. -/
theorem synthesis_failure_silent (cv : AudioConv) (sentTok : Str → List Str)
    (runTts : Str → Except Str AudioSegment) (autoPunct : Str) (spc : Nat)
    (raw : Str) (e : Str)
    (hne : pyNormalize raw autoPunct ≠ [])
    (hfail : handle_tts_request cv sentTok runTts (pyNormalize raw autoPunct) 250 =
      .error e) (ev2 : EvIn) :
    handle_event cv sentTok runTts autoPunct spc (.synthesize raw) = ([], .ok true) ∧
    runSession cv sentTok runTts autoPunct spc [.synthesize raw, ev2] =
      (handle_event cv sentTok runTts autoPunct spc ev2).1 := by
  have hsf : synthResult cv sentTok runTts (pyNormalize raw autoPunct) = .error e := by
    unfold synthResult
    rw [if_neg hne]
    exact hfail
  have h1 : handle_event cv sentTok runTts autoPunct spc (.synthesize raw) =
      ([], .ok true) := by
    unfold handle_event
    simp only [hsf]
  refine ⟨h1, ?_⟩
  unfold runSession
  simp only [List.map_cons, List.map_nil, h1, List.flatten_cons, List.flatten_nil]
  simp

/-- Witness for Claim C3: an engine that raises on every sentence; the
second event is a `Describe`, which is answered normally. -/
theorem synthesis_failure_silent_witness :
    (pyNormalize ("hi".toList) (".?!".toList) ≠ []) ∧
    (handle_tts_request idConv (fun s => [s]) (fun _ => Except.error ("boom".toList))
      (pyNormalize ("hi".toList) (".?!".toList)) 250 = .error ("boom".toList)) ∧
    (handle_event idConv (fun s => [s]) (fun _ => Except.error ("boom".toList))
        (".?!".toList) 1024 (.synthesize ("hi".toList)) = ([], .ok true) ∧
      runSession idConv (fun s => [s]) (fun _ => Except.error ("boom".toList))
        (".?!".toList) 1024 [.synthesize ("hi".toList), .describe] =
        (handle_event idConv (fun s => [s]) (fun _ => Except.error ("boom".toList))
          (".?!".toList) 1024 EvIn.describe).1) :=
  ⟨by decide, by decide,
    synthesis_failure_silent idConv (fun s => [s]) (fun _ => Except.error ("boom".toList))
      (".?!".toList) 1024 ("hi".toList) ("boom".toList)
      (by decide) (by decide) .describe⟩

/-- Claim C10: for every successfully synthesized request (under a positive
chunk size), the concatenation of the byte payloads of all emitted
`AudioChunk` events, in emission order, is exactly the waveform's raw byte
buffer — no byte dropped, duplicated or reordered — and every `AudioChunk`
carries the same rate, width and channels as the request's `AudioStart`. -/
theorem chunk_bytes_reassemble (cv : AudioConv) (sentTok : Str → List Str)
    (runTts : Str → Except Str AudioSegment) (autoPunct : Str) (spc : Nat)
    (raw : Str) (audio : AudioSegment)
    (hok : synthResult cv sentTok runTts (pyNormalize raw autoPunct) = .ok audio)
    (hbpc : 0 < audio.sample_width * audio.channels * spc) :
    ((handle_event cv sentTok runTts autoPunct spc
      (.synthesize raw)).1.filterMap chunkPayload).flatten = audio.data ∧
    (handle_event cv sentTok runTts autoPunct spc
      (.synthesize raw)).1.filterMap chunkFormat =
      List.replicate
        (numChunksOf audio.data.length (audio.sample_width * audio.channels * spc))
        (audio.frame_rate, audio.sample_width, audio.channels) ∧
    (handle_event cv sentTok runTts autoPunct spc (.synthesize raw)).1.head? =
      some (EvOut.audioStart audio.frame_rate audio.sample_width audio.channels) := by
  have h := handle_event_synthesize_ok cv sentTok runTts autoPunct spc raw audio hok hbpc
  refine ⟨?_, ?_, by rw [h]; rfl⟩
  · rw [h]
    simp only [List.filterMap_cons, chunkPayload, List.filterMap_append,
      List.filterMap_map]
    have hcomp : (chunkPayload ∘
        EvOut.audioChunk audio.frame_rate audio.sample_width audio.channels) = some := by
      funext b
      rfl
    rw [hcomp, List.filterMap_some]
    simp [audioChunks_flatten hbpc]
  · rw [h]
    simp only [List.filterMap_cons, chunkFormat, List.filterMap_append,
      List.filterMap_map]
    have hcomp : (chunkFormat ∘
        EvOut.audioChunk audio.frame_rate audio.sample_width audio.channels) =
        (fun _ => some (audio.frame_rate, audio.sample_width, audio.channels)) := by
      funext b
      rfl
    rw [hcomp]
    rw [show (fun (_ : List Nat) =>
        some (audio.frame_rate, audio.sample_width, audio.channels)) =
      (some ∘ Function.const (List Nat)
        (audio.frame_rate, audio.sample_width, audio.channels)) from rfl]
    rw [← List.filterMap_map, List.filterMap_some, List.map_const,
      audioChunks_length]
    simp

/-- Witness for Claim C10 at the same concrete request as the C2 witness. -/
theorem chunk_bytes_reassemble_witness :
    synthResult idConv (fun s => [s])
        (fun _ => Except.ok ⟨22050, 2, 1, [1, 2, 3, 4]⟩)
        (pyNormalize ("hi".toList) (".?!".toList)) =
      .ok ⟨22050, 2, 1, [1, 2, 3, 4]⟩ ∧
    0 < 2 * 1 * 2 ∧
    ((handle_event idConv (fun s => [s])
        (fun _ => Except.ok ⟨22050, 2, 1, [1, 2, 3, 4]⟩)
        (".?!".toList) 2
        (.synthesize ("hi".toList))).1.filterMap chunkPayload).flatten =
      [1, 2, 3, 4] :=
  ⟨by decide, by decide,
    (chunk_bytes_reassemble idConv (fun s => [s])
      (fun _ => Except.ok ⟨22050, 2, 1, [1, 2, 3, 4]⟩)
      (".?!".toList) 2 ("hi".toList) ⟨22050, 2, 1, [1, 2, 3, 4]⟩
      (by decide) (by decide)).1⟩

theorem intercalate_cons_flatten (sep x : List Nat) (xs : List (List Nat)) :
    List.intercalate sep (x :: xs) = x ++ (xs.map (fun y => sep ++ y)).flatten := by
  induction xs generalizing x with
  | nil => simp [List.intercalate]
  | cons y ys ih =>
    have h1 : List.intercalate sep (x :: y :: ys) =
        x ++ sep ++ List.intercalate sep (y :: ys) := by
      simp only [List.intercalate, List.intersperse, List.flatten_cons]
      simp [List.append_assoc]
    rw [h1, ih]
    simp [List.append_assoc]

theorem foldlM_tts_ok (cv : AudioConv) (runTts : Str → Except Str AudioSegment)
    (delay r w ch : Nat) (hr : 11025 ≤ r) (hw : 2 ≤ w) (hc : 1 ≤ ch)
    (f : Str → AudioSegment) :
    ∀ (rest : List Str) (acc : AudioSegment),
      acc.frame_rate = r → acc.sample_width = w → acc.channels = ch →
      (∀ s ∈ rest, runTts s = .ok (f s) ∧
        (f s).frame_rate = r ∧ (f s).sample_width = w ∧ (f s).channels = ch) →
      rest.foldlM (fun audio sentence => do
        let newLine ← runTts sentence
        pure (appendSeg cv audio (appendSeg cv (silentSeg delay) newLine))) acc =
      .ok ⟨r, w, ch,
        acc.data ++
          (rest.map (fun s =>
            (syncPause cv delay ch r w).data ++ (f s).data)).flatten⟩ := by
  intro rest
  induction rest with
  | nil =>
    intro acc ha1 ha2 ha3 hok
    simp only [List.foldlM_nil, List.map_nil, List.flatten_nil, List.append_nil]
    cases acc
    simp only at ha1 ha2 ha3
    subst ha1
    subst ha2
    subst ha3
    rfl
  | cons s rest ih =>
    intro acc ha1 ha2 ha3 hok
    obtain ⟨hrt, hf1, hf2, hf3⟩ := hok s (by simp)
    rw [List.foldlM_cons, hrt]
    show rest.foldlM _ (appendSeg cv acc (appendSeg cv (silentSeg delay) (f s))) = _
    rw [appendSeg_pause_step cv delay r w ch hr hw hc acc (f s)
      ha1 ha2 ha3 hf1 hf2 hf3]
    rw [ih _ rfl rfl rfl (fun s' hs' => hok s' (by simp [hs']))]
    simp [List.append_assoc]

/-- Claim C4: for every sentence sequence produced by the tokenizer, if it
is empty, synthesis returns a zero-duration silent waveform; otherwise,
whenever the engine succeeds on every sentence (returning `f s` for
sentence `s`) and every waveform carries the established format
`(r, w, ch)` — the spec's §3 shared-format invariant — which dominates
pydub's default silence format (11025 Hz, 16-bit, mono, as with the real
22050 Hz engine), the result is the first sentence's waveform followed,
for each subsequent sentence in source order, by the `delay`-millisecond
silent pause conformed by pydub's sync to the established format
(`syncPause`) and then that sentence's waveform — exactly one pause
between consecutive sentences and none before the first or after the
last (`List.intercalate`), in the established format. -/
theorem orchestrator_splices_pauses (cv : AudioConv) (sentTok : Str → List Str)
    (runTts : Str → Except Str AudioSegment) (text : Str) (delay r w ch : Nat)
    (hr : 11025 ≤ r) (hw : 2 ≤ w) (hc : 1 ≤ ch)
    (f : Str → AudioSegment)
    (hok : ∀ s ∈ sentTok text, runTts s = .ok (f s))
    (hfmt : ∀ s ∈ sentTok text, (f s).frame_rate = r ∧
      (f s).sample_width = w ∧ (f s).channels = ch) :
    (sentTok text = [] →
      handle_tts_request cv sentTok runTts text delay = .ok (silentSeg 0) ∧
      (silentSeg 0).data = []) ∧
    (∀ s0 rest, sentTok text = s0 :: rest →
      handle_tts_request cv sentTok runTts text delay =
        .ok ⟨r, w, ch,
          List.intercalate (syncPause cv delay ch r w).data
            ((sentTok text).map (fun s => (f s).data))⟩) := by
  constructor
  · intro hsent
    constructor
    · unfold handle_tts_request
      simp only [hsent]
    · rfl
  · intro s0 rest hsent
    unfold handle_tts_request
    simp only [hsent]
    rw [hok s0 (by rw [hsent]; simp)]
    show rest.foldlM _ (f s0) = _
    obtain ⟨h01, h02, h03⟩ := hfmt s0 (by rw [hsent]; simp)
    rw [foldlM_tts_ok cv runTts delay r w ch hr hw hc f rest (f s0) h01 h02 h03
      (fun s' hs' => ⟨hok s' (by rw [hsent]; simp [hs']),
        hfmt s' (by rw [hsent]; simp [hs'])⟩)]
    rw [List.map_cons, intercalate_cons_flatten, List.map_map]
    have hd0 : (f s0).data ++
        ((rest.map (fun s =>
          (syncPause cv delay ch r w).data ++ (f s).data)).flatten) =
        (f s0).data ++
          (rest.map ((fun y => (syncPause cv delay ch r w).data ++ y) ∘
            fun s => (f s).data)).flatten := rfl
    rw [hd0]

/-- Witness for Claim C4: a two-sentence request against an engine at the
real 22050 Hz mono 16-bit format with the default 250 ms pause; pydub's
sync resamples the 11025 Hz default-format silence (5512 bytes) to the
established 22050 Hz format, giving an 11024-byte pause that is spliced
between the two sentence waveforms. -/
theorem orchestrator_splices_pauses_witness :
    (∀ s ∈ (fun (_ : Str) => ["a".toList, "b".toList]) ("t".toList),
      (fun (s : Str) =>
        (Except.ok ⟨22050, 2, 1, if s = "a".toList then [1, 2] else [3, 4]⟩ :
          Except Str AudioSegment)) s =
      .ok ((fun (s : Str) =>
        (⟨22050, 2, 1, if s = "a".toList then [1, 2] else [3, 4]⟩ :
          AudioSegment)) s)) ∧
    (syncPause zeroResample 250 1 22050 2).data = List.replicate 11024 0 ∧
    handle_tts_request zeroResample (fun _ => ["a".toList, "b".toList])
      (fun s => Except.ok ⟨22050, 2, 1, if s = "a".toList then [1, 2] else [3, 4]⟩)
      ("t".toList) 250 =
      .ok ⟨22050, 2, 1,
        List.intercalate (syncPause zeroResample 250 1 22050 2).data
          [[1, 2], [3, 4]]⟩ := by
  refine ⟨by decide, ?_, ?_⟩
  · have hgen : ∀ a : AudioSegment, a.frame_rate = 11025 → a.sample_width = 2 →
        a.channels = 1 → a.data.length = 5512 →
        (syncSeg zeroResample a 1 22050 2).data = List.replicate 11024 0 := by
      intro a h1 h2 h3 h4
      have hc : set_channels zeroResample a 1 = a := by
        unfold set_channels
        rw [if_pos h3]
      have hfr : set_frame_rate zeroResample a 22050 =
          AudioSegment.mk 22050 a.sample_width a.channels
            (List.replicate (a.data.length * 22050 / a.frame_rate) 0) := by
        unfold set_frame_rate
        rw [if_neg (by rw [h1]; omega)]
        rfl
      have hsw : set_sample_width zeroResample
          (AudioSegment.mk 22050 a.sample_width a.channels
            (List.replicate (a.data.length * 22050 / a.frame_rate) 0)) 2 =
          AudioSegment.mk 22050 a.sample_width a.channels
            (List.replicate (a.data.length * 22050 / a.frame_rate) 0) := by
        unfold set_sample_width
        rw [if_pos (show a.sample_width = 2 from h2)]
      unfold syncSeg
      rw [hc, hfr, hsw]
      show List.replicate (a.data.length * 22050 / a.frame_rate) 0 =
        List.replicate 11024 0
      rw [h4, h1]
    have hlen : (silentSeg 250).data.length = 5512 := by
      show (List.replicate (11025 * 250 / 1000 * 2) (0 : Nat)).length = 5512
      rw [List.length_replicate]
    exact hgen (silentSeg 250) rfl rfl rfl hlen
  · have h := (orchestrator_splices_pauses zeroResample
      (fun _ => ["a".toList, "b".toList])
      (fun s =>
        Except.ok ⟨22050, 2, 1, if s = "a".toList then [1, 2] else [3, 4]⟩)
      ("t".toList) 250 22050 2 1 (by decide) (by decide) (by decide)
      (fun s => ⟨22050, 2, 1, if s = "a".toList then [1, 2] else [3, 4]⟩)
      (by decide) (by decide)).2 ("a".toList) ["b".toList] rfl
    exact h

theorem foldlM_tts_error (cv : AudioConv) (runTts : Str → Except Str AudioSegment)
    (pause : AudioSegment) {si e : Str} (hfail : runTts si = .error e) :
    ∀ (pre : List Str) (acc : AudioSegment) (post : List Str),
      (∀ s ∈ pre, ∃ a, runTts s = .ok a) →
      (pre ++ si :: post).foldlM (fun audio sentence => do
        let newLine ← runTts sentence
        pure (appendSeg cv audio (appendSeg cv pause newLine))) acc = .error e := by
  intro pre
  induction pre with
  | nil =>
    intro acc post hok
    rw [List.nil_append, List.foldlM_cons, hfail]
    rfl
  | cons s pre ih =>
    intro acc post hok
    obtain ⟨a, ha⟩ := hok s (by simp)
    rw [List.cons_append, List.foldlM_cons, ha]
    show (pre ++ si :: post).foldlM _ (appendSeg cv acc (appendSeg cv pause a)) = _
    exact ih _ _ (fun s' hs' => hok s' (by simp [hs']))

/-- Claim C7 (counterexample): the surfaced synthesis error does not carry
the failing sentence's index.  For the same two-sentence request, an engine
failing on the first sentence (index 0) and an engine failing on the second
sentence (index 1) surface exactly the same error value — the bare cause
"boom" — so the error propagated by `handle_tts_request` cannot encode
which sentence failed; no `SynthesisFailure` carrying an index exists in
the code. -/
theorem synthesis_error_no_index :
    (fun (s : Str) => if s = "A".toList
        then (Except.error ("boom".toList) : Except Str AudioSegment)
        else Except.ok ⟨22050, 2, 1, [1, 2]⟩) ("A".toList) =
      .error ("boom".toList) ∧
    (fun (s : Str) => if s = "B".toList
        then (Except.error ("boom".toList) : Except Str AudioSegment)
        else Except.ok ⟨22050, 2, 1, [1, 2]⟩) ("B".toList) =
      .error ("boom".toList) ∧
    handle_tts_request idConv (fun _ => ["A".toList, "B".toList])
      (fun s => if s = "A".toList then Except.error ("boom".toList)
        else Except.ok ⟨22050, 2, 1, [1, 2]⟩) ("t".toList) 250 =
      .error ("boom".toList) ∧
    handle_tts_request idConv (fun _ => ["A".toList, "B".toList])
      (fun s => if s = "B".toList then Except.error ("boom".toList)
        else Except.ok ⟨22050, 2, 1, [1, 2]⟩) ("t".toList) 250 =
      .error ("boom".toList) ∧
    handle_tts_request idConv (fun _ => ["A".toList, "B".toList])
      (fun s => if s = "A".toList then Except.error ("boom".toList)
        else Except.ok ⟨22050, 2, 1, [1, 2]⟩) ("t".toList) 250 =
    handle_tts_request idConv (fun _ => ["A".toList, "B".toList])
      (fun s => if s = "B".toList then Except.error ("boom".toList)
        else Except.ok ⟨22050, 2, 1, [1, 2]⟩) ("t".toList) 250 :=
  ⟨by decide, by decide, by decide, by decide, by decide⟩

/-- Claim C7 (amended): when the engine call fails for a sentence (all
sentences before index `i` succeed and sentence `i` fails with cause `e`),
the orchestrator aborts the whole request without returning any partial
waveform and surfaces the engine's underlying error unchanged; no sentence
index is attached to the surfaced error. -/
theorem synthesis_error_propagates (cv : AudioConv) (sentTok : Str → List Str)
    (runTts : Str → Except Str AudioSegment) (text : Str) (delay : Nat)
    (i : Nat) (si e : Str)
    (hpre : ∀ s ∈ (sentTok text).take i, ∃ a, runTts s = .ok a)
    (hi : (sentTok text)[i]? = some si)
    (hfail : runTts si = .error e) :
    handle_tts_request cv sentTok runTts text delay = .error e := by
  cases hsent : sentTok text with
  | nil =>
    rw [hsent] at hi
    simp at hi
  | cons s0 rest =>
    rw [hsent] at hi hpre
    unfold handle_tts_request
    simp only [hsent]
    cases i with
    | zero =>
      have hs0 : s0 = si := by simpa using hi
      rw [hs0, hfail]
      rfl
    | succ j =>
      obtain ⟨a0, ha0⟩ := hpre s0 (by rw [List.take_succ_cons]; simp)
      rw [ha0]
      show rest.foldlM _ a0 = _
      have hij : rest[j]? = some si := by simpa using hi
      have hjlt : j < rest.length := by
        by_contra hge
        push_neg at hge
        rw [List.getElem?_eq_none hge] at hij
        simp at hij
      have hgetj : si = rest[j] := by
        have h2 := List.getElem?_eq_getElem hjlt
        rw [hij] at h2
        exact Option.some_inj.mp h2
      have hdecomp : rest.take j ++ si :: rest.drop (j + 1) = rest := by
        rw [hgetj, ← List.drop_eq_getElem_cons hjlt]
        exact List.take_append_drop j rest
      rw [← hdecomp]
      exact foldlM_tts_error cv runTts (silentSeg delay) hfail (rest.take j) a0
        (rest.drop (j + 1))
        (fun s' hs' => hpre s' (by rw [List.take_succ_cons]; simp [hs']))

/-- Witness for the amended Claim C7: the engine fails on the second
sentence (index 1) of a two-sentence request with cause "boom". -/
theorem synthesis_error_propagates_witness :
    (∀ s ∈ ((fun (_ : Str) => ["A".toList, "B".toList]) ("t".toList)).take 1,
      ∃ a, (fun (s : Str) => if s = "B".toList
        then (Except.error ("boom".toList) : Except Str AudioSegment)
        else Except.ok ⟨22050, 2, 1, [1, 2]⟩) s = .ok a) ∧
    ((fun (_ : Str) => ["A".toList, "B".toList]) ("t".toList))[1]? =
      some ("B".toList) ∧
    handle_tts_request idConv (fun _ => ["A".toList, "B".toList])
      (fun s => if s = "B".toList then Except.error ("boom".toList)
        else Except.ok ⟨22050, 2, 1, [1, 2]⟩) ("t".toList) 250 =
      .error ("boom".toList) := by
  refine ⟨?_, by decide, ?_⟩
  · intro s hs
    have hsa : s = "A".toList := by simpa using hs
    subst hsa
    exact ⟨⟨22050, 2, 1, [1, 2]⟩, by decide⟩
  · exact synthesis_error_propagates idConv (fun _ => ["A".toList, "B".toList])
      (fun s => if s = "B".toList then Except.error ("boom".toList)
        else Except.ok ⟨22050, 2, 1, [1, 2]⟩) ("t".toList) 250 1
      ("B".toList) ("boom".toList)
      (by
        intro s hs
        have hsa : s = "A".toList := by simpa using hs
        subst hsa
        exact ⟨⟨22050, 2, 1, [1, 2]⟩, by decide⟩)
      (by decide) (by decide)

theorem foldlM_tts_format (cv : AudioConv) (runTts : Str → Except Str AudioSegment)
    (pause : AudioSegment) :
    ∀ (rest : List Str) (acc A : AudioSegment),
      rest.foldlM (fun audio sentence => do
        let newLine ← runTts sentence
        pure (appendSeg cv audio (appendSeg cv pause newLine))) acc = .ok A →
      acc.sample_width ≤ A.sample_width ∧ acc.channels ≤ A.channels := by
  intro rest
  induction rest with
  | nil =>
    intro acc A h
    rw [List.foldlM_nil] at h
    have hAA : acc = A := by
      have h2 : (Except.ok acc : Except Str AudioSegment) = Except.ok A := h
      injection h2
    rw [hAA]
    exact ⟨le_rfl, le_rfl⟩
  | cons s rest ih =>
    intro acc A h
    rw [List.foldlM_cons] at h
    cases hrt : runTts s with
    | error err =>
      rw [hrt] at h
      exact absurd h (by simp [Bind.bind, Except.bind])
    | ok n =>
      rw [hrt] at h
      have h2 : rest.foldlM _
          (appendSeg cv acc (appendSeg cv pause n)) = Except.ok A := h
      have h3 := ih (appendSeg cv acc (appendSeg cv pause n)) A h2
      constructor
      · refine le_trans ?_ h3.1
        rw [appendSeg_sample_width]
        exact Nat.le_max_left _ _
      · refine le_trans ?_ h3.2
        rw [appendSeg_channels]
        exact Nat.le_max_left _ _

theorem handle_tts_request_format (cv : AudioConv) (sentTok : Str → List Str)
    (runTts : Str → Except Str AudioSegment) (text : Str) (delay : Nat)
    (hfmt : ∀ s a, runTts s = .ok a → 0 < a.sample_width ∧ 0 < a.channels)
    (A : AudioSegment)
    (h : handle_tts_request cv sentTok runTts text delay = .ok A) :
    0 < A.sample_width ∧ 0 < A.channels := by
  unfold handle_tts_request at h
  cases hsent : sentTok text with
  | nil =>
    simp only [hsent] at h
    have : silentSeg 0 = A := by
      have h2 : (Except.ok (silentSeg 0) : Except Str AudioSegment) = .ok A := h
      injection h2
    rw [← this]
    exact ⟨by decide, by decide⟩
  | cons s0 rest =>
    simp only [hsent] at h
    cases hrt : runTts s0 with
    | error err =>
      rw [hrt] at h
      exact absurd h (by simp [Bind.bind, Except.bind])
    | ok first =>
      rw [hrt] at h
      have h2 : rest.foldlM _ first = Except.ok A := h
      have h3 := foldlM_tts_format cv runTts (silentSeg delay) rest first A h2
      have h4 := hfmt s0 first hrt
      omega

/-- Claim C8 (counterexample): a zero chunk size is not fatal at startup:
`main` performs no validation of `--samples-per-chunk` — with an existing
models directory and `samples_per_chunk = 0`, startup proceeds to serve
(`none`, no exit).  The failure instead occurs at request time: the handler
emits `AudioStart` and then raises `ZeroDivisionError` from the chunk
computation, so neither chunks nor `AudioStop` follow. -/
theorem startup_accepts_zero_chunk_size :
    mainStartupExit true 0 = none ∧
    handle_event idConv (fun s => [s])
      (fun _ => Except.ok ⟨22050, 2, 1, [1, 2]⟩)
      (".?!".toList) 0 (.synthesize ("hi".toList)) =
      ([EvOut.audioStart 22050 2 1], .error PyExc.zeroDivision) :=
  ⟨rfl, by decide⟩

/-- Claim C8 (amended): startup accepts any samples-per-chunk value (see
the counterexample); however, under a positive samples-per-chunk
configuration, and an engine whose waveforms carry positive sample width
and channel count, every chunk size `width * channels * samplesPerChunk`
is positive, the framer's chunk computation never divides by zero, and
every request reaching the framer proceeds without a chunk-size failure:
the handler never raises, returning `.ok true` for every event. -/
theorem chunking_safe_of_positive_config (cv : AudioConv) (sentTok : Str → List Str)
    (runTts : Str → Except Str AudioSegment) (autoPunct : Str)
    (samplesPerChunk : Nat) (hspc : 0 < samplesPerChunk)
    (hfmt : ∀ s a, runTts s = .ok a → 0 < a.sample_width ∧ 0 < a.channels) :
    ∀ ev, (handle_event cv sentTok runTts autoPunct samplesPerChunk ev).2 =
      .ok true := by
  intro ev
  cases ev with
  | describe => rfl
  | unexpected => rfl
  | synthesize raw =>
    cases hs : synthResult cv sentTok runTts (pyNormalize raw autoPunct) with
    | error e =>
      unfold handle_event
      simp only [hs]
    | ok audio =>
      have hfa : 0 < audio.sample_width ∧ 0 < audio.channels := by
        unfold synthResult at hs
        by_cases ht : pyNormalize raw autoPunct = []
        · rw [if_pos ht] at hs
          have : silentSeg 0 = audio := by
            have h2 : (Except.ok (silentSeg 0) : Except Str AudioSegment) =
              .ok audio := hs
            injection h2
          rw [← this]
          exact ⟨by decide, by decide⟩
        · rw [if_neg ht] at hs
          exact handle_tts_request_format cv sentTok runTts
            (pyNormalize raw autoPunct) 250 hfmt audio hs
      have hbpc : 0 < audio.sample_width * audio.channels * samplesPerChunk :=
        Nat.mul_pos (Nat.mul_pos hfa.1 hfa.2) hspc
      rw [handle_event_synthesize_ok cv sentTok runTts autoPunct samplesPerChunk
        raw audio hs hbpc]

/-- Witness for the amended Claim C8 at samples-per-chunk 2 and a fixed
engine waveform of width 2, one channel. -/
theorem chunking_safe_of_positive_config_witness :
    0 < 2 ∧
    (∀ (s : Str) (a : AudioSegment),
      (fun (_ : Str) =>
        (Except.ok ⟨22050, 2, 1, [1, 2, 3, 4]⟩ : Except Str AudioSegment)) s =
        .ok a → 0 < a.sample_width ∧ 0 < a.channels) ∧
    (handle_event idConv (fun s => [s])
      (fun _ => Except.ok ⟨22050, 2, 1, [1, 2, 3, 4]⟩)
      (".?!".toList) 2 (.synthesize ("hi".toList))).2 = .ok true := by
  refine ⟨by decide, ?_, ?_⟩
  · intro s a ha
    have : (⟨22050, 2, 1, [1, 2, 3, 4]⟩ : AudioSegment) = a := by injection ha
    rw [← this]
    exact ⟨by decide, by decide⟩
  · exact chunking_safe_of_positive_config idConv (fun s => [s])
      (fun _ => Except.ok ⟨22050, 2, 1, [1, 2, 3, 4]⟩) (".?!".toList) 2
      (by decide)
      (by
        intro s a ha
        have : (⟨22050, 2, 1, [1, 2, 3, 4]⟩ : AudioSegment) = a := by injection ha
        rw [← this]
        exact ⟨by decide, by decide⟩)
      (.synthesize ("hi".toList))

theorem is_valid_file_md5 {Content : Type} (fsize : Content → Nat)
    (md5 : Content → Str) {c : Content} {expectedMd5 : Str}
    (h : is_valid_file fsize md5 (some c) expectedMd5 = true) :
    md5 c = expectedMd5 := by
  simp only [is_valid_file] at h
  by_cases h1 : fsize c < 1024
  · rw [if_pos h1] at h
    exact absurd h (by simp)
  · rw [if_neg h1] at h
    by_cases h2 : md5 c ≠ expectedMd5
    · rw [if_pos h2] at h
      exact absurd h (by simp)
    · push_neg at h2
      exact h2

/-- Claim C9: the model-artifact check is idempotent.  For a file that
exists, is at least 1 KiB, and matches its expected MD5 checksum,
re-running the per-file check performs no network access and leaves the
file unchanged.  For a file of sufficient size whose checksum does not
match (and a fetch that delivers content `c1`), it deletes the old file,
re-fetches exactly once from the templated, quoted URL, re-verifies the
download exactly once, and keeps the download only if it verifies — the
old content is gone either way. -/
theorem model_artifact_check {Content : Type} (fsize : Content → Nat)
    (md5 : Content → Str) (quoteUrl : Str → Str) (fetch : Str → Option Content)
    (baseUrl fname expectedMd5 : Str) (file : Option Content) :
    (is_valid_file fsize md5 file expectedMd5 = true →
      ensureModelFile fsize md5 quoteUrl fetch baseUrl fname expectedMd5 file =
        { file := file, fetched := [], verifiedAfterDownload := 0 }) ∧
    (∀ c0 c1, file = some c0 → 1024 ≤ fsize c0 → md5 c0 ≠ expectedMd5 →
      fetch (quoteUrl (formatUrl baseUrl fname)) = some c1 →
      (ensureModelFile fsize md5 quoteUrl fetch baseUrl fname expectedMd5
          file).fetched = [quoteUrl (formatUrl baseUrl fname)] ∧
        (ensureModelFile fsize md5 quoteUrl fetch baseUrl fname expectedMd5
          file).verifiedAfterDownload = 1 ∧
        (ensureModelFile fsize md5 quoteUrl fetch baseUrl fname expectedMd5
          file).file =
          (if is_valid_file fsize md5 (some c1) expectedMd5 = true then some c1
           else none) ∧
        (ensureModelFile fsize md5 quoteUrl fetch baseUrl fname expectedMd5
          file).file ≠ some c0) := by
  constructor
  · intro hvalid
    unfold ensureModelFile
    rw [if_pos hvalid]
  · intro c0 c1 hfile hsize hbad hfetch
    subst hfile
    have hinvalid : is_valid_file fsize md5 (some c0) expectedMd5 = false := by
      simp only [is_valid_file]
      rw [if_neg (by omega), if_pos hbad]
    unfold ensureModelFile
    rw [hinvalid]
    simp only [Bool.false_eq_true, if_false, hfetch]
    by_cases hv : is_valid_file fsize md5 (some c1) expectedMd5 = true
    · rw [if_pos hv, if_pos hv]
      refine ⟨rfl, rfl, rfl, ?_⟩
      intro hc
      have hcc : c1 = c0 := by injection hc
      have hgood := is_valid_file_md5 fsize md5 hv
      rw [hcc] at hgood
      exact hbad hgood
    · rw [if_neg hv, if_neg hv]
      exact ⟨rfl, rfl, rfl, by simp⟩

/-- Witness for Claim C9: contents are byte lists whose modelled size is a
constant 2000 bytes; the digest of content [7] is "good" and anything else
digests to "bad"; a stale file [1] (sufficient size, digest "bad") is
deleted and replaced by a fetch that delivers the good content [7]. -/
theorem model_artifact_check_witness :
    (is_valid_file (fun (_ : List Nat) => 2000)
        (fun c => if c = [7] then "good".toList else "bad".toList)
        (some [7]) ("good".toList) = true ∧
      ensureModelFile (fun (_ : List Nat) => 2000)
        (fun c => if c = [7] then "good".toList else "bad".toList)
        (fun u => u) (fun _ => some [7])
        ("u/{file}".toList) ("m.pt".toList) ("good".toList) (some [7]) =
        { file := some [7], fetched := [], verifiedAfterDownload := 0 }) ∧
    ((some [1] : Option (List Nat)) = some [1] ∧
      1024 ≤ 2000 ∧
      ((fun (c : List Nat) => if c = [7] then "good".toList else "bad".toList) [1] ≠
        "good".toList) ∧
      (ensureModelFile (fun (_ : List Nat) => 2000)
        (fun c => if c = [7] then "good".toList else "bad".toList)
        (fun u => u) (fun _ => some [7])
        ("u/{file}".toList) ("m.pt".toList) ("good".toList)
        (some [1])).fetched =
        [(fun (u : Str) => u) (formatUrl ("u/{file}".toList) ("m.pt".toList))] ∧
      (ensureModelFile (fun (_ : List Nat) => 2000)
        (fun c => if c = [7] then "good".toList else "bad".toList)
        (fun u => u) (fun _ => some [7])
        ("u/{file}".toList) ("m.pt".toList) ("good".toList)
        (some [1])).verifiedAfterDownload = 1 ∧
      (ensureModelFile (fun (_ : List Nat) => 2000)
        (fun c => if c = [7] then "good".toList else "bad".toList)
        (fun u => u) (fun _ => some [7])
        ("u/{file}".toList) ("m.pt".toList) ("good".toList)
        (some [1])).file ≠ some [1]) := by
  constructor
  · constructor
    · decide
    · exact (model_artifact_check (fun (_ : List Nat) => 2000)
        (fun c => if c = [7] then "good".toList else "bad".toList)
        (fun u => u) (fun _ => some [7])
        ("u/{file}".toList) ("m.pt".toList) ("good".toList)
        (some [7])).1 (by decide)
  · have h := (model_artifact_check (fun (_ : List Nat) => 2000)
      (fun c => if c = [7] then "good".toList else "bad".toList)
      (fun u => u) (fun _ => some [7])
      ("u/{file}".toList) ("m.pt".toList) ("good".toList)
      (some [1])).2 [1] [7] rfl (by decide) (by decide) rfl
    refine ⟨rfl, by decide, by decide, h.1, h.2.1, ?_⟩
    intro hc
    exact h.2.2.2 hc
